

import Mathlib

/-!
Verification of the sportsJS college-football data pipeline.

This file gives a shallow embedding, in Lean 4, of the pure core of the
repository's JavaScript sources:

* src/util/ncaa-id-consolidation.js (canonical-id resolution, duplicate
  mappings, game/team consolidation),
* src/games/football-games-college.js (date/score parsing, ESPN-NCAA game
  matching, per-team and global matching passes, deduplication, binding
  discovery and the researchable-binding filter),
* the teams-side name utilities (cleanName, isSafeMatch, generateId).

Modelling conventions:

* JavaScript strings are modelled as 'List Char'; 'none' plays the role of
  null/undefined, and JS truthiness of a string-valued field is "present and
  non-empty" ('jsTruthy').
* Dates are modelled as integer milliseconds since the Unix epoch, with the
  runtime timezone taken to be UTC.  JS compares Math.abs(ms)/86400000
  against 1.5 and 7 in binary floating point; on every realistic range
  (|ms| well below 2^53) those comparisons agree exactly with the integer
  comparisons against 129600000 = 1.5 days and 604800000 = 7 days in ms
  used here, because both bounds are exactly representable and the quotient
  is never within one ulp of either bound without being exactly on it.
* Number(s) is modelled on optional-sign decimal integer strings (with the
  JS quirks Number('') = 0 and whitespace trimming); fractional, hex and
  exponent forms are outside the modelled domain.
* new Date(y, m, d) calendar normalisation (month/day overflow, the
  1900-addition for two-digit years) is modelled with exact civil-calendar
  arithmetic (days_from_civil / civil_from_days).
* The cryptographic digest used by generateId (Node's crypto module, not
  part of this repository) is an explicit function parameter, constrained
  only by the length of its hex output.
* File-system state (the persisted consolidation map, the schedule caches)
  is passed explicitly as association lists.
-/

/-- JS strings are lists of characters in this embedding. -/
abbrev Str := List Char

/-- Character data of a Lean string literal, used to write concrete inputs. -/
def str (s : String) : Str := s.data

/-- JS truthiness of a possibly-null string: present and non-empty. -/
def jsTruthy : Option Str → Bool
  | none => false
  | some s => !s.isEmpty

/-- JS \w character class: ASCII letters, digits and underscore. -/
def wordChar (c : Char) : Bool :=
  (('a' ≤ c && c ≤ 'z') || ('A' ≤ c && c ≤ 'Z') || ('0' ≤ c && c ≤ '9') || c = '_')

/-- JS \s on the ASCII range: space, tab, newline, CR, FF, VT. -/
def wsChar (c : Char) : Bool :=
  (c = ' ' || c = '\t' || c = '\n' || c = '\r' || c = '\x0c' || c = '\x0b')

/-- ASCII lower-casing of one character, as String.prototype.toLowerCase. -/
def lowChar (c : Char) : Char :=
  if 'A' ≤ c && c ≤ 'Z' then Char.ofNat (c.toNat + 32) else c

/-- ASCII upper-casing of one character, as String.prototype.toUpperCase. -/
def upChar (c : Char) : Char :=
  if 'a' ≤ c && c ≤ 'z' then Char.ofNat (c.toNat - 32) else c

/-- s.toLowerCase() on the ASCII range. -/
def jsToLower (s : Str) : Str := s.map lowChar

/-- s.toUpperCase() on the ASCII range. -/
def jsToUpper (s : Str) : Str := s.map upChar

/-- s.trim(): strip leading and trailing whitespace. -/
def jsTrim (s : Str) : Str :=
  ((s.dropWhile (fun c => wsChar c)).reverse.dropWhile (fun c => wsChar c)).reverse

/-- s.split(sep) for a single-character separator; always returns at least
one piece, exactly as in JS. -/
def jsSplitChar (sep : Char) : Str → List Str
  | [] => [[]]
  | c :: cs =>
    let rest := jsSplitChar sep cs
    if c = sep then [] :: rest
    else match rest with
      | [] => [[c]]
      | p :: ps => (c :: p) :: ps

/-- Splitting on runs of whitespace, as s.split(/\s+/) on strings with no
leading whitespace (the uses in the source apply it after trimming-like
normalisation; a leading run still yields a leading empty piece as in JS). -/
def jsSplitWs : Str → List Str
  | [] => [[]]
  | c :: cs =>
    let rest := jsSplitWs cs
    if wsChar c then
      match rest with
      | [] :: _ => rest
      | _ => [] :: rest
    else match rest with
      | [] => [[c]]
      | p :: ps => (c :: p) :: ps

/-- Does the character occur in the string? -/
def hasChar (c : Char) (s : Str) : Bool := s.contains c

/-- Floor division on integers, as used by calendar arithmetic. -/
def fdiv (a b : Int) : Int := Int.fdiv a b

/-- Flooring modulus on integers. -/
def fmod (a b : Int) : Int := a - b * fdiv a b

/-- Days from civil date (proleptic Gregorian), Unix epoch = day 0.
Standard Hinnant-style algorithm, valid for all integer years. -/
def days_from_civil (y m d : Int) : Int :=
  let y' := y - (if m ≤ 2 then 1 else 0)
  let era := fdiv y' 400
  let yoe := y' - era * 400
  let mp := fmod (m + 9) 12
  let doy := fdiv (153 * mp + 2) 5 + d - 1
  let doe := yoe * 365 + fdiv yoe 4 - fdiv yoe 100 + doy
  era * 146097 + doe - 719468

/-- Civil date (year, month 1-12, day 1-31) from a day count. -/
def civil_from_days (z : Int) : Int × Int × Int :=
  let z' := z + 719468
  let era := fdiv z' 146097
  let doe := z' - era * 146097
  let yoe := fdiv (doe - fdiv doe 1460 + fdiv doe 36524 - fdiv doe 146096) 365
  let y := yoe + era * 400
  let doy := doe - (365 * yoe + fdiv yoe 4 - fdiv yoe 100)
  let mp := fdiv (5 * doy + 2) 153
  let d := doy - fdiv (153 * mp + 2) 5 + 1
  let m := mp + (if mp < 10 then 3 else -9)
  (y + (if m ≤ 2 then 1 else 0), m, d)

/-- Milliseconds per day. -/
def msPerDay : Int := 86400000

/-- new Date(y, monthIndex, day) at local (= modelled UTC) midnight, in ms.
Includes the JS quirk that integer years 0..99 mean 1900..1999, and the
calendar normalisation of out-of-range month indices and days. -/
def jsMakeDateMs (y mIdx d : Int) : Int :=
  let yAdj := if 0 ≤ y ∧ y ≤ 99 then y + 1900 else y
  let ny := yAdj + fdiv mIdx 12
  let nm := fmod mIdx 12
  (days_from_civil ny (nm + 1) 1 + (d - 1)) * msPerDay

/-- date.getMonth() of a millisecond timestamp: zero-based month in UTC. -/
def jsGetMonth (ms : Int) : Int :=
  (civil_from_days (fdiv ms msPerDay)).2.1 - 1

/-- Number(s) on the modelled domain: trim whitespace; empty means 0;
optional sign followed by decimal digits; anything else is NaN (none). -/
def jsNumber : Option Str → Option Int
  | none => none
  | some s =>
    let t := jsTrim s
    if t.isEmpty then some 0
    else
      let (sign, digits) :=
        match t with
        | '-' :: rest => ((-1 : Int), rest)
        | '+' :: rest => ((1 : Int), rest)
        | _ => ((1 : Int), t)
      if digits.isEmpty then none
      else if digits.all (fun c => c.isDigit) then
        some (sign * (digits.foldl (fun a c => a * 10 + (c.toNat - '0'.toNat)) 0 : Nat))
      else none

/-- The _parseNcaaDate function of football-games-college.js.
jsParse models the implementation-defined new Date(string) fallback for
strings without a slash (none = Invalid Date). -/
def parseNcaaDate (jsParse : Str → Option Int) : Option Str → Option Int
  | none => none
  | some s =>
    if s.isEmpty then none
    else if hasChar '/' s then
      let first := (jsSplitChar ' ' s).headI
      let parts := jsSplitChar '/' first
      let month := jsNumber (parts[0]?)
      let day := jsNumber (parts[1]?)
      let year := jsNumber (parts[2]?)
      match month, day, year with
      | some m, some d, some y =>
        let ms := jsMakeDateMs y (m - 1) d
        if jsGetMonth ms + 1 = m then some ms else none
      | _, _, _ => none
    else jsParse s

/-- Result record of _parseNcaaScore. -/
structure ScoreResult where
  home_score : Option Int
  away_score : Option Int
  winner_id : Option Str
  deriving Repr, DecidableEq

/-- The all-null score result. -/
def emptyScore : ScoreResult := ⟨none, none, none⟩

/-- Fuelled scanner for the first match of /(\d+)-(\d+)/: the first maximal
digit run immediately followed by a dash and a digit; returns both captured
digit runs.  The fuel (initially the string length) only bounds recursion
depth; every recursive call is on a strictly shorter string. -/
def findDigitPairGo : Nat → Str → Option (Str × Str)
  | 0, _ => none
  | _, [] => none
  | fuel + 1, c :: cs =>
    if c.isDigit then
      let run := (c :: cs).takeWhile (fun x => x.isDigit)
      match (c :: cs).dropWhile (fun x => x.isDigit) with
      | '-' :: r2 =>
        let run2 := r2.takeWhile (fun x => x.isDigit)
        if run2.isEmpty then findDigitPairGo fuel r2 else some (run, run2)
      | rest => findDigitPairGo fuel rest
    else findDigitPairGo fuel cs

/-- First /(\d+)-(\d+)/ match of a string, as String.prototype.match. -/
def findDigitPair (s : Str) : Option (Str × Str) := findDigitPairGo s.length s

/-- parseInt on a non-empty digit string. -/
def digitsToInt (s : Str) : Int :=
  (s.foldl (fun a c => a * 10 + (c.toNat - '0'.toNat)) 0 : Nat)

/-- The _determineWinnerFromIndicator helper: W/L/T from the perspective of
gameTeamId. -/
def determineWinnerFromIndicator (ind : Option Char) (gameTeamId homeTeamId awayTeamId : Option Str) :
    Option Str :=
  match ind with
  | none => none
  | some i =>
    if i = 'T' then none
    else
      let isGameTeamHome := gameTeamId = homeTeamId
      let gameTeamWon := i = 'W'
      if isGameTeamHome then (if gameTeamWon then homeTeamId else awayTeamId)
      else (if gameTeamWon then awayTeamId else homeTeamId)

/-- The leading W/L/T indicator match of _parseNcaaScore (regex of an
indicator letter, whitespace, then the rest): the indicator and the rest
of the trimmed string after the whitespace run. -/
def wlSplit : Str → Option (Char × Str)
  | c :: c2 :: rest =>
    if (c = 'W' || c = 'L' || c = 'T') && wsChar c2 then
      some (c, (c2 :: rest).dropWhile (fun x => wsChar x))
    else none
  | _ => none

/-- The _parseNcaaScore function of football-games-college.js. -/
def parseNcaaScore (scoreStr : Option Str) (homeTeamId awayTeamId gameTeamId : Option Str) :
    ScoreResult :=
  if !jsTruthy scoreStr then emptyScore
  else
    let trimmed := jsTrim (scoreStr.getD [])
    let wl : Option (Char × Str) := wlSplit trimmed
    let scoresPart := match wl with | some (_, p) => p | none => trimmed
    let indicator := match wl with | some (i, _) => some i | none => none
    match findDigitPair scoresPart with
    | none => emptyScore
    | some (s1, s2) =>
      let score1 := digitsToInt s1
      let score2 := digitsToInt s2
      let isGameTeamHome := gameTeamId = homeTeamId
      let hs := if isGameTeamHome then score1 else score2
      let as_ := if isGameTeamHome then score2 else score1
      let w0 := determineWinnerFromIndicator indicator gameTeamId homeTeamId awayTeamId
      let w :=
        match indicator with
        | some _ => w0
        | none =>
          if hs > as_ then homeTeamId
          else if as_ > hs then awayTeamId
          else w0
      { home_score := some hs, away_score := some as_, winner_id := w }

/-- Association-list lookup modelling own-property access on a JS object
or Map (first binding wins; insertion keeps one binding per key). -/
def alookup {κ α : Type} [DecidableEq κ] (k : κ) : List (κ × α) → Option α
  | [] => none
  | (k', v) :: rest => if k' = k then some v else alookup k rest

/-- Association-list update modelling JS property assignment: replace the
value in place if the key exists, otherwise append the new binding. -/
def aset {κ α : Type} [DecidableEq κ] (k : κ) (v : α) : List (κ × α) → List (κ × α)
  | [] => [(k, v)]
  | (k', v') :: rest => if k' = k then (k, v) :: rest else (k', v') :: aset k v rest

/-- The getCanonicalNcaaId resolver of ncaa-id-consolidation.js.  The
persisted multi-sport map is passed explicitly (the source reloads it from
disk on every call; a missing or unloadable file is the empty map). -/
def getCanonicalNcaaId (mainMap : List (Str × List (Str × Str))) (ncaaId sport : Str) : Str :=
  if ncaaId.isEmpty || sport.isEmpty then ncaaId
  else
    let sportMap := (alookup sport mainMap).getD []
    match alookup ncaaId sportMap with
    | some v => if v.isEmpty then ncaaId else v
    | none => ncaaId

/-- The addDuplicateMapping insertion of ncaa-id-consolidation.js: resolve
the canonical id through the current map, then store the duplicate.  The
source throws when sport is missing; that is modelled as none. -/
def addDuplicateMapping (mainMap : List (Str × List (Str × Str))) (dup canon sport : Str) :
    Option (List (Str × List (Str × Str))) :=
  if sport.isEmpty then none
  else
    let resolved := getCanonicalNcaaId mainMap canon sport
    let sportMap := (alookup sport mainMap).getD []
    some (aset sport (aset dup resolved sportMap) mainMap)

/-- A sequence of addDuplicateMapping calls for one sport, applied in order
to a starting map.  (With a non-empty sport every call succeeds, so the
getD fallback never fires.) -/
def applyMappings (sport : Str) (calls : List (Str × Str))
    (m0 : List (Str × List (Str × Str))) : List (Str × List (Str × Str)) :=
  calls.foldl (fun m dc => (addDuplicateMapping m dc.1 dc.2 sport).getD m) m0

/-- A team record, with the fields the embedded functions read. -/
structure Team where
  id : Option Str
  espn_id : Option Str
  reference_id : Option Str
  short_name : Option Str
  full_name : Option Str
  university : Option Str
  abv : Option Str
  deriving Repr, DecidableEq

/-- An NCAA schedule game as stored in the NCAA schedules cache. -/
structure NcaaGame where
  ncaa_game_id : Option Str
  date : Option Str
  season : Int
  home_team_ncaa_id : Option Str
  opponent_ncaa_id : Option Str
  home_team_name : Option Str
  opponent_name : Option Str
  internal_team_id : Option Str
  score : Option Str
  deriving Repr, DecidableEq

/-- One team's entry in the NCAA schedules cache. -/
structure TeamCache where
  games : Option (List NcaaGame)
  deriving Repr, DecidableEq

/-- The per-record body of consolidateGamesNcaaIds: canonicalize each
truthy field of the default ncaaIdFields in order. -/
def consolidateGame (cm : List (Str × List (Str × Str))) (sport : Str) (g : NcaaGame) :
    NcaaGame :=
  let g1 :=
    if jsTruthy g.home_team_ncaa_id then
      { g with home_team_ncaa_id := some (getCanonicalNcaaId cm (g.home_team_ncaa_id.getD []) sport) }
    else g
  if jsTruthy g1.opponent_ncaa_id then
    { g1 with opponent_ncaa_id := some (getCanonicalNcaaId cm (g1.opponent_ncaa_id.getD []) sport) }
  else g1

/-- consolidateGamesNcaaIds of ncaa-id-consolidation.js, at its default
ncaaIdFields = [home_team_ncaa_id, opponent_ncaa_id]. -/
def consolidateGamesNcaaIds (cm : List (Str × List (Str × Str))) (games : List NcaaGame)
    (sport : Str) : List NcaaGame :=
  if sport.isEmpty then games
  else games.map (consolidateGame cm sport)

/-- The per-record body of consolidateTeamsNcaaIds. -/
def consolidateTeam (cm : List (Str × List (Str × Str))) (sport : Str) (t : Team) : Team :=
  if jsTruthy t.reference_id then
    { t with reference_id := some (getCanonicalNcaaId cm (t.reference_id.getD []) sport) }
  else t

/-- consolidateTeamsNcaaIds of ncaa-id-consolidation.js. -/
def consolidateTeamsNcaaIds (cm : List (Str × List (Str × Str))) (teamsData : List Team)
    (sport : Str) : List Team :=
  if sport.isEmpty then teamsData
  else teamsData.map (consolidateTeam cm sport)

/-- getCacheEntryByCanonicalId of ncaa-id-consolidation.js: direct lookup
under the canonical id, then a scan for a non-canonical key resolving to
the same canonical id. -/
def getCacheEntryByCanonicalId (cm : List (Str × List (Str × Str)))
    (cache : List (Str × TeamCache)) (ncaaId sport : Str) : Option TeamCache :=
  if ncaaId.isEmpty || sport.isEmpty then none
  else
    let canonical := getCanonicalNcaaId cm ncaaId sport
    match alookup canonical cache with
    | some e => some e
    | none => (cache.find? (fun kv => getCanonicalNcaaId cm kv.1 sport = canonical)).map Prod.snd

/-- The availableNcaaIds list of _isMatch: the truthy reference ids of the
resolved home and away teams. -/
def knownIds (homeTeam awayTeam : Option Team) : List Str :=
  [homeTeam.bind Team.reference_id, awayTeam.bind Team.reference_id].filterMap
    (fun o => match o with
      | some v => if v.isEmpty then none else some v
      | none => none)

/-- Membership of a possibly-null NCAA id in the known-id set
(Set.prototype.has; null and undefined are never members). -/
def agreesWith (ids : List Str) (x : Option Str) : Bool :=
  match x with
  | some v => ids.contains v
  | none => false

/-- The _isMatch predicate of football-games-college.js: date windows of
1.5 and 7 days (129600000 and 604800000 ms) and NCAA-id agreement. -/
def isMatch (espnMs ncaaMs : Int) (homeTeam awayTeam : Option Team) (ncaa : NcaaGame) : Bool :=
  let msDiff : Int := (espnMs - ncaaMs).natAbs
  if msDiff > 7 * msPerDay then false
  else
    let avail := knownIds homeTeam awayTeam
    if avail.isEmpty then false
    else
      let hasH := agreesWith avail ncaa.home_team_ncaa_id
      let hasO := agreesWith avail ncaa.opponent_ncaa_id
      if msDiff ≤ 129600000 then hasH || hasO
      else if avail.length = 2 then hasH && hasO
      else hasH || hasO

/-- The apostrophe character (written by code point to keep the source
free of quote-escaping). -/
def apo : Char := Char.ofNat 39

/-- If the first argument is a literal prefix of the second, return the
rest of the second, else none. -/
def afterLit : Str → Str → Option Str
  | [], s => some s
  | _, [] => none
  | p :: ps, c :: cs => if c = p then afterLit ps cs else none

/-- Try to match one of the regex alternatives at the head of the string,
in order, requiring a word boundary right after the match (all alternatives
used in the source start and end with word characters). -/
def tryAlts (alts : List Str) (s : Str) : Option (Str × Str) :=
  match alts with
  | [] => none
  | a :: rest =>
    match afterLit a s with
    | some r =>
      if (match r with | [] => true | c :: _ => !wordChar c) then some (a, r)
      else tryAlts rest s
    | none => tryAlts rest s

/-- Is the last character of the string a word character? -/
def lastIsWord (a : Str) : Bool :=
  match a.getLast? with
  | some x => wordChar x
  | none => false

/-- Fuelled scanner for String.replace with a global word-bounded
alternation pattern: at every position with a word boundary before it, try
the alternatives in order (with the boundary after the match); emit the
replacement and continue after the match, otherwise copy one character.
Fuel (initially the string length) suffices because every step consumes at
least one character of non-empty alternatives. -/
def rwGo (alts : List Str) (repl : Str) : Nat → Bool → Str → Str
  | 0, _, s => s
  | _, _, [] => []
  | fuel + 1, prevW, c :: cs =>
    if !prevW then
      match tryAlts alts (c :: cs) with
      | some (a, rest) => repl ++ rwGo alts repl fuel (lastIsWord a) rest
      | none => c :: rwGo alts repl fuel (wordChar c) cs
    else c :: rwGo alts repl fuel (wordChar c) cs

/-- s.replace(word-bounded alternation, repl) with the g flag. -/
def replaceWordAlts (alts : List Str) (repl : Str) (s : Str) : Str :=
  rwGo alts repl s.length false s

/-- Collapse every whitespace run to a single space, as
s.replace(regex of one or more whitespace, a space). -/
def collapseWsGo : Bool → Str → Str
  | _, [] => []
  | inRun, c :: cs =>
    if wsChar c then
      if inRun then collapseWsGo true cs else ' ' :: collapseWsGo true cs
    else c :: collapseWsGo false cs

/-- Whitespace-run collapsing entry point. -/
def collapseWs (s : Str) : Str := collapseWsGo false s

/-- words.join(a single space). -/
def joinSp : List Str → Str
  | [] => []
  | [w] => w
  | w :: ws => w ++ ' ' :: joinSp ws

/-- The commonNicknames set of the teams matching utilities. -/
def commonNicknames : List Str :=
  [str "eagles", str "tigers", str "bulldogs", str "wildcats", str "panthers", str "lions",
   str "bears", str "cardinals", str "hawks", str "knights", str "trojans", str "spartans",
   str "warriors", str "vikings", str "pirates", str "flames", str "saints", str "demons",
   str "rebels", str "mustangs", str "cougars", str "rams", str "wolves", str "falcons",
   str "jaguars", str "bison", str "broncos", str "colts", str "hornets", str "owls",
   str "bobcats", str "raccoons"]

/-- The cleanName normalisation of the teams matching utilities
(identical in part_001 and part_003).  Note that the [.()] replacement
callback always receives a single bracket or dot character, so its
stateMappings branch is dead and the stage simply deletes those
characters. -/
def cleanName (name : Option Str) : Str :=
  if !jsTruthy name then []
  else
    let s0 := jsToLower (name.getD [])
    let s1 := s0.filter (fun c => c ≠ apo)
    let s2 := s1.flatMap (fun c => if c = '&' then str "and" else [c])
    let s3 := s2.filter (fun c => !(c = '.' || c = '(' || c = ')'))
    let s4 := s3.map (fun c => if c = '-' then ' ' else c)
    let s5 := replaceWordAlts [str "st", str "state"] (str "state") s4
    let s6 := replaceWordAlts [str "saint"] (str "st") s5
    let s7 := replaceWordAlts [str "mount", str "mt"] (str "mount") s6
    let s8 := replaceWordAlts [str "california state", str "cal state"] (str "csu") s7
    let s9 := replaceWordAlts [str "southern illinois"] (str "siu") s8
    let s10 := replaceWordAlts [str "suny", str "state university of new york"] (str "suny") s9
    let s11 := replaceWordAlts [str "university of", str "university", str "univ", str "college"] [] s10
    let s12 := replaceWordAlts [str "at"] [] s11
    let ws := (jsSplitChar ' ' s12).filter (fun w => !(commonNicknames.contains w))
    jsTrim (collapseWs (joinSp ws))

/-- Insertion-ordered deduplication, modelling new Set(array) followed by
spreading back to an array. -/
def setList (l : List Str) : List Str :=
  l.foldl (fun acc w => if acc.contains w then acc else acc ++ [w]) []

/-- The deduplicated token set of a cleaned name, as new Set(clean.split(a
space)). -/
def tokenSet (n : Option Str) : List Str := setList (jsSplitChar ' ' (cleanName n))

/-- The word-set intersection size of two names' token sets. -/
def overlapCount (n1 n2 : Option Str) : Nat :=
  ((tokenSet n1).filter (fun x => (tokenSet n2).contains x)).length

/-- The smaller of the two token-set sizes. -/
def minTokens (n1 n2 : Option Str) : Nat :=
  min (tokenSet n1).length (tokenSet n2).length

/-- The isSafeMatch predicate of the cross-sport binding leverage pass
(identical in part_001 and part_003).  The source compares
intersection / min(sizes) > 0.8 in binary floating point; for the integer
token counts arising here that comparison has the exact rational value
used below (5 * intersection > 4 * min), a correspondence proved in the
C5 theorem. -/
def isSafeMatch (name1 name2 : Option Str) : Bool :=
  if !jsTruthy name1 || !jsTruthy name2 then false
  else if cleanName name1 = cleanName name2 then true
  else 5 * overlapCount name1 name2 > 4 * minTokens name1 name2

/-- The generateId helper of football-teams-college.js: an md5 hex digest
of the template CFB-espnId, truncated, with a two-letter prefix from the
abbreviation when available.  The digest itself lives in Node's crypto
module, so it is a parameter here, constrained in the theorems only by the
length (32) of an md5 hex string. -/
def generateId (md5hex : Str → Str) (espnId : Option Str) (abv : Option Str) : Option Str :=
  if !jsTruthy espnId then none
  else
    let hash := md5hex (str "CFB-" ++ espnId.getD [])
    let pfx :=
      if jsTruthy abv && decide ((abv.getD []).length ≥ 2) then jsToUpper ((abv.getD []).take 2)
      else jsToUpper (hash.take 2)
    let sfx := jsToUpper ((hash.drop 2).take 6)
    some (pfx ++ sfx)

/-- An ESPN-side game record, with the fields read by the matching and
deduplication passes.  date_time is modelled in epoch milliseconds (none =
missing or unparseable). -/
structure EspnGame where
  espn_id : Option Str
  id : Option Str
  reference_id : Option Str
  date_time : Option Int
  internal_team_id : Option Str
  home_espn_id : Option Str
  away_espn_id : Option Str
  title : Option Str
  short_title : Option Str
  deriving Repr, DecidableEq

/-- The deduplication key of _deduplicateGames: espn_id, else reference_id,
else id (JS truthiness chain). -/
def gameKey (g : EspnGame) : Option Str :=
  if jsTruthy g.espn_id then g.espn_id
  else if jsTruthy g.reference_id then g.reference_id
  else if jsTruthy g.id then g.id
  else none

/-- The sort key of the final sort: new Date(date_time or 0) in ms. -/
def sortKey (g : EspnGame) : Int := g.date_time.getD 0

/-- Stable insertion into a date-sorted list (equal keys keep arrival
order, matching the stable Array.prototype.sort). -/
def insertByKey (g : EspnGame) : List EspnGame → List EspnGame
  | [] => [g]
  | h :: t => if sortKey g < sortKey h then g :: h :: t else h :: insertByKey g t

/-- Stable sort by date, as allGames.sort on the date difference. -/
def sortByDate (l : List EspnGame) : List EspnGame :=
  l.foldl (fun acc g => insertByKey g acc) []

/-- The _deduplicateGames function of football-games-college.js: key each
game by gameKey (later games overwrite earlier ones at the same key, games
with no key are dropped), then sort the remaining values by date. -/
def deduplicateGames (allGames : List EspnGame) : List EspnGame :=
  let keyed := allGames.foldl
    (fun acc g => match gameKey g with
      | some k => aset k g acc
      | none => acc) []
  sortByDate (keyed.map Prod.snd)

/-- UTC day number of a millisecond timestamp, modelling the date part of
toISOString (runtime timezone taken as UTC). -/
def dayKeyOfMs (ms : Int) : Int := fdiv ms msPerDay

/-- The by-date buckets built at the start of _matchTeamGames: NCAA games
of this team with a truthy id and a parseable date, grouped by day. -/
def ngBuckets (jsParse : Str → Option Int) (team : Team) (ncaaGames : List NcaaGame) :
    List (Int × List NcaaGame) :=
  ncaaGames.foldl
    (fun acc g =>
      if !jsTruthy g.ncaa_game_id || g.internal_team_id ≠ team.id then acc
      else match parseNcaaDate jsParse g.date with
        | none => acc
        | some ms =>
          let k := dayKeyOfMs ms
          aset k ((alookup k acc).getD [] ++ [g]) acc) []

/-- The _matchTeamGames pass of football-games-college.js for one team,
acting on the full game list (the source filters the list first and then
re-checks the same conditions on each game, so acting on the full list is
equivalent; updates are mutations of shared records in the source).  A
local consumed-id set prevents one NCAA id from being used twice within
this one call. -/
def matchTeamGames (jsParse : Str → Option Int) (games : List EspnGame)
    (ncaaGames : List NcaaGame) (team : Team) : List EspnGame :=
  if (games.filter (fun g => g.internal_team_id = team.id)).isEmpty || ncaaGames.isEmpty then games
  else
    let buckets := ngBuckets jsParse team ncaaGames
    (games.foldl
      (fun (st : List Str × List EspnGame) g =>
        let consumed := st.1
        let acc := st.2
        if jsTruthy g.reference_id || g.internal_team_id ≠ team.id then (consumed, acc ++ [g])
        else match g.date_time with
          | none => (consumed, acc ++ [g])
          | some ms =>
            match alookup (dayKeyOfMs ms) buckets with
            | none => (consumed, acc ++ [g])
            | some sameDay =>
              match sameDay.find? (fun ng =>
                  !consumed.contains (ng.ncaa_game_id.getD []) && ng.internal_team_id = team.id) with
              | some avail =>
                (consumed ++ [avail.ncaa_game_id.getD []],
                 acc ++ [{ g with reference_id := avail.ncaa_game_id }])
              | none => (consumed, acc ++ [g])) ([], [])).2

/-- The teams eligible for the per-team matching loop: truthy espn_id and
reference_id. -/
def matchableTeams (teams : List Team) : List Team :=
  teams.filter (fun t => jsTruthy t.espn_id && jsTruthy t.reference_id)

/-- The per-team matching loop of get_formatted_games: for each matchable
team, fetch its cache entry through the consolidation map, season-filter
its games, stamp them with the team's internal id and run _matchTeamGames. -/
def perTeamPass (jsParse : Str → Option Int) (cm : List (Str × List (Str × Str)))
    (cache : List (Str × TeamCache)) (years : List Int) (teams : List Team)
    (games0 : List EspnGame) : List EspnGame :=
  (matchableTeams teams).foldl
    (fun gs t =>
      let tcd := getCacheEntryByCanonicalId cm cache ((t.reference_id).getD []) (str "football")
      let ncaa := (((tcd.bind TeamCache.games).getD []).filter
          (fun g => years.contains g.season)).map
        (fun g => { g with internal_team_id := t.id })
      matchTeamGames jsParse gs ncaa t) games0

/-- Is the first string a contiguous substring of the second
(String.prototype.includes)? -/
def subOf (needle hay : Str) : Bool :=
  match hay with
  | [] => needle.isEmpty
  | _ :: t => (afterLit needle hay).isSome || subOf needle t

/-- The local cleanName of findTeamByName in ncaa-id-consolidation.js:
lower-case, strip characters outside \w and \s, trim. -/
def cnLoose (s : Option Str) : Option Str :=
  s.map (fun n => jsTrim ((jsToLower n).filter (fun c => wordChar c || wsChar c)))

/-- The findTeamByName fallback matcher of ncaa-id-consolidation.js:
exact normalized-name match on three fields, then a partial word-overlap
match. -/
def findTeamByName (teamName : Option Str) (teamsData : List Team) : Option Team :=
  if !jsTruthy teamName || teamsData.isEmpty then none
  else
    let searchName := cnLoose teamName
    match teamsData.find? (fun t =>
        cnLoose t.short_name = searchName || cnLoose t.full_name = searchName ||
        cnLoose t.university = searchName) with
    | some m => some m
    | none =>
      let sw := (jsSplitWs (searchName.getD [])).filter (fun w => w.length > 2)
      teamsData.find? (fun t =>
        let tw := ((jsSplitWs ((cnLoose (some ((t.short_name).getD []))).getD [])) ++
            (jsSplitWs ((cnLoose (some ((t.full_name).getD []))).getD [])) ++
            (jsSplitWs ((cnLoose (some ((t.university).getD []))).getD []))).filter
          (fun w => w.length > 2)
        let matching := sw.filter (fun w => tw.any (fun twd => subOf w twd || subOf twd w))
        matching.length ≥ min sw.length 2)

/-- One separator of title.split on whitespace-delimited vs, at or the at
sign (case-insensitive): if the string starts with such a separator,
return what follows it. -/
def sepAfter : Str → Option Str
  | c :: a :: rest =>
    if wsChar c then
      if a = '@' then
        match rest with
        | d :: r => if wsChar d then some r else none
        | [] => none
      else
        match rest with
        | b :: d :: r =>
          if ((lowChar a = 'v' && lowChar b = 's') || (lowChar a = 'a' && lowChar b = 't')) &&
              wsChar d then some r
          else none
        | _ => none
    else none
  | _ => none

/-- Fuelled scanner for the title split. -/
def splitVsAtGo : Nat → Str → Str → List Str
  | 0, accPc, s => [accPc.reverse ++ s]
  | _, accPc, [] => [accPc.reverse]
  | fuel + 1, accPc, c :: cs =>
    match sepAfter (c :: cs) with
    | some rest => accPc.reverse :: splitVsAtGo fuel [] rest
    | none => splitVsAtGo fuel (c :: accPc) cs

/-- title.split on the vs-at separators, as in the matching passes. -/
def jsSplitVsAt (s : Str) : List Str := splitVsAtGo s.length [] s

/-- Team resolution of the global matching pass: find by ESPN id, else by
the two halves of the split title. -/
def resolveTeamsForGame (teams : List Team) (g : EspnGame) : Option Team × Option Team :=
  let title := if jsTruthy g.title then (g.title).getD []
    else if jsTruthy g.short_title then (g.short_title).getD []
    else []
  let parts := jsSplitVsAt title
  let homeT := match teams.find? (fun t => t.espn_id = g.home_espn_id) with
    | some t => some t
    | none => if parts.length = 2 then findTeamByName (some (parts.getD 1 [])) teams else none
  let awayT := match teams.find? (fun t => t.espn_id = g.away_espn_id) with
    | some t => some t
    | none => if parts.length = 2 then findTeamByName (some (parts.getD 0 [])) teams else none
  (homeT, awayT)

/-- The global fallback pass _matchEspnWithNcaaGames of
football-games-college.js: season-filtered NCAA games deduplicated by
game id (first occurrence kept; Object.values iteration is modelled as
insertion order), then each completed, still-unmatched ESPN game takes the
first _isMatch-ing NCAA game not already consumed by THIS pass.  Its
consumed-id set starts empty: reference ids assigned by earlier passes are
not seeded into it.  (The source's trailing loop that decorates games with
display names and winner ids touches none of the fields modelled here.) -/
def globalPass (jsParse : Str → Option Int) (now : Int) (games : List EspnGame)
    (cache : List (Str × TeamCache)) (teams : List Team) (years : List Int) :
    List EspnGame :=
  let allNcaa := (cache.map Prod.snd).flatMap
    (fun tc => ((tc.games).getD []).filter (fun g => years.contains g.season))
  let ncaaGames := (allNcaa.foldl
    (fun acc g =>
      if jsTruthy g.ncaa_game_id && (alookup ((g.ncaa_game_id).getD []) acc).isNone then
        aset ((g.ncaa_game_id).getD []) g acc
      else acc) []).map Prod.snd
  (games.foldl
    (fun (st : List Str × List EspnGame) g =>
      let consumed := st.1
      let acc := st.2
      match g.date_time with
      | none => (consumed, acc ++ [g])
      | some ms =>
        if ¬ (ms < now) then (consumed, acc ++ [g])
        else if jsTruthy g.reference_id then (consumed, acc ++ [g])
        else
          let tpair := resolveTeamsForGame teams g
          match ncaaGames.find? (fun ng =>
              jsTruthy ng.ncaa_game_id &&
              (parseNcaaDate jsParse ng.date).isSome &&
              !consumed.contains ((ng.ncaa_game_id).getD []) &&
              (match parseNcaaDate jsParse ng.date with
                | some nms => isMatch ms nms tpair.1 tpair.2 ng
                | none => false)) with
          | some ng =>
            (consumed ++ [(ng.ncaa_game_id).getD []],
             acc ++ [{ g with reference_id := ng.ncaa_game_id }])
          | none => (consumed, acc ++ [g])) ([], [])).2

/-- The game-resolution portion of get_formatted_games: deduplicate the
ESPN games, run the per-team pass, run the global fallback pass (the
source only runs it when verbose is set and unmatched games remain), drop
generated NCAA-only games whose id was already matched, and deduplicate
the combination.  The construction of the generated NCAA-only game objects
is orthogonal to the claims and is taken as an input list. -/
def resolveGamesPipeline (jsParse : Str → Option Int) (cm : List (Str × List (Str × Str)))
    (now : Int) (verbose : Bool) (teams : List Team) (espnGames : List EspnGame)
    (cache : List (Str × TeamCache)) (years : List Int)
    (generatedNcaa : List EspnGame) : List EspnGame :=
  let all0 := deduplicateGames espnGames
  let all1 := perTeamPass jsParse cm cache years teams all0
  let unmatched := all1.filter (fun g => !jsTruthy g.reference_id)
  let all2 := if verbose && !unmatched.isEmpty then globalPass jsParse now all1 cache teams years
    else all1
  let existing := (all2.filter (fun g => jsTruthy g.reference_id)).map
    (fun g => (g.reference_id).getD [])
  let uniqueNcaa := generatedNcaa.filter
    (fun g => jsTruthy g.reference_id && !existing.contains ((g.reference_id).getD []))
  deduplicateGames (all2 ++ uniqueNcaa)

/-- The discriminant of a potential-binding record. -/
inductive BindingType where
  | espnToNcaa
  | ncaaConsolidation
  | legacy
  deriving Repr, DecidableEq

/-- A binding confidence: the modern paths store the evidence count, the
legacy path may carry a level string (whose numeric comparisons in JS are
NaN comparisons, hence false). -/
inductive Confidence where
  | num (n : Nat)
  | level (s : Str)
  deriving Repr, DecidableEq

/-- A potential-binding record accumulated by deducePotentialBindings. -/
structure Binding where
  btype : BindingType
  confidence : Confidence
  already_bound : Bool
  evidence_games : List (Option Str × Option Str)
  source_ncaa_id : Option Str
  target_ncaa_id : Option Str
  deriving Repr, DecidableEq

/-- The _createTeamsNameMap helper: every truthy name variant, lower-cased
and trimmed, mapped to its team (later teams overwrite earlier ones). -/
def createTeamsNameMap (teams : List Team) : List (Str × Team) :=
  teams.foldl
    (fun m t =>
      [t.short_name, t.full_name, t.university].foldl
        (fun m' nm =>
          match nm with
          | some s => if s.isEmpty then m' else aset (jsTrim (jsToLower s)) t m'
          | none => m') m) []

/-- The processPotentialConsolidation helper of _processNcaaConsolidations:
skip already-consolidated ids, look the missing team's name up in the name
map, and if it maps to a team carrying a different NCAA id, upsert a
consolidation candidate whose confidence is the length of its evidence
list. -/
def processPotentialConsolidation (cm : List (Str × List (Str × Str)))
    (teamsByName : List (Str × Team)) (pbm : List (Str × Binding))
    (found : Option Team) (missingId : Option Str) (missingName : Option Str)
    (ng : NcaaGame) : List (Str × Binding) :=
  if found.isNone || !jsTruthy missingId || !jsTruthy missingName then pbm
  else
    let mid := missingId.getD []
    let canonical := getCanonicalNcaaId cm mid (str "football")
    if canonical ≠ mid then pbm
    else
      let cleanMissing := jsTrim (jsToLower (missingName.getD []))
      match alookup cleanMissing teamsByName with
      | none => pbm
      | some pm =>
        if pm.reference_id = missingId then pbm
        else
          let refStr := match pm.reference_id with
            | some s => s
            | none => str "undefined"
          let key := str "ncaa-consolidation-" ++ mid ++ str "-" ++ refStr
          let existing := (alookup key pbm).getD
            { btype := .ncaaConsolidation, confidence := .num 0, already_bound := false,
              evidence_games := [], source_ncaa_id := missingId,
              target_ncaa_id := pm.reference_id }
          let ev := existing.evidence_games ++ [(ng.ncaa_game_id, found.bind Team.short_name)]
          aset key { existing with evidence_games := ev, confidence := .num ev.length } pbm

/-- The _processNcaaConsolidations pass of football-games-college.js. -/
def processNcaaConsolidations (cm : List (Str × List (Str × Str)))
    (allNcaaGames : List NcaaGame) (teams : List Team)
    (pbm0 : List (Str × Binding)) : List (Str × Binding) :=
  let teamsByName := createTeamsNameMap teams
  allNcaaGames.foldl
    (fun pbm ng =>
      if !jsTruthy ng.home_team_ncaa_id || !jsTruthy ng.opponent_ncaa_id then pbm
      else
        let homeT := teams.find? (fun t => t.reference_id = ng.home_team_ncaa_id)
        let awayT := teams.find? (fun t => t.reference_id = ng.opponent_ncaa_id)
        let pbm1 :=
          if homeT.isNone && awayT.isSome && jsTruthy ng.home_team_name then
            processPotentialConsolidation cm teamsByName pbm awayT ng.home_team_ncaa_id
              ng.home_team_name ng
          else pbm
        if homeT.isSome && awayT.isNone && jsTruthy ng.opponent_name then
          processPotentialConsolidation cm teamsByName pbm1 homeT ng.opponent_ncaa_id
            ng.opponent_name ng
        else pbm1) pbm0

/-- Is a confidence a number at least k (legacy level strings compare as
NaN in the source, hence false)? -/
def confAtLeast (k : Nat) : Confidence → Bool
  | .num n => n ≥ k
  | .level _ => false

/-- The researchableBindings filter of get_formatted_games: espn-to-ncaa
candidates need not-already-bound and confidence at least 2, NCAA
consolidation candidates only confidence at least 1, legacy candidates
not-already-bound and a high or medium level or numeric confidence at
least 2. -/
def researchable (b : Binding) : Bool :=
  match b.btype with
  | .espnToNcaa => !b.already_bound && confAtLeast 2 b.confidence
  | .ncaaConsolidation => confAtLeast 1 b.confidence
  | .legacy =>
    !b.already_bound &&
      (b.confidence = .level (str "high") || b.confidence = .level (str "medium") ||
        confAtLeast 2 b.confidence)

/-- The researchable-binding selection applied to a candidate list. -/
def researchableBindings (bs : List Binding) : List Binding := bs.filter researchable

/-- Concrete team for the duplicate-reference-id scenario: bound on both
sources. -/
def teamT1 : Team :=
  { id := some (str "t1"), espn_id := some (str "e100"), reference_id := some (str "n1"),
    short_name := some (str "Alpha"), full_name := none, university := none, abv := none }

/-- Concrete ESPN game of teamT1 on 2023-09-01 (matched by the per-team
pass). -/
def gameA : EspnGame :=
  { espn_id := some (str "eA"), id := none, reference_id := none,
    date_time := some (days_from_civil 2023 9 1 * msPerDay),
    internal_team_id := some (str "t1"), home_espn_id := some (str "e100"),
    away_espn_id := none, title := none, short_title := none }

/-- Concrete ESPN game one day later involving teamT1 as home side but
belonging to another internal team (matched by the global fallback pass). -/
def gameB : EspnGame :=
  { espn_id := some (str "eB"), id := none, reference_id := none,
    date_time := some ((days_from_civil 2023 9 1 + 1) * msPerDay),
    internal_team_id := some (str "t2"), home_espn_id := some (str "e100"),
    away_espn_id := some (str "e999"), title := none, short_title := none }

/-- Concrete NCAA game of teamT1 on 2023-09-01. -/
def ncaaX : NcaaGame :=
  { ncaa_game_id := some (str "gX"), date := some (str "9/1/2023"), season := 2023,
    home_team_ncaa_id := some (str "n1"), opponent_ncaa_id := some (str "n2"),
    home_team_name := none, opponent_name := none, internal_team_id := none, score := none }

/-- The NCAA schedules cache holding ncaaX under teamT1's NCAA id. -/
def cacheX : List (Str × TeamCache) := [(str "n1", { games := some [ncaaX] })]

/-- The pipeline run on the duplicate-reference-id scenario. -/
def dupRefRun : List EspnGame :=
  resolveGamesPipeline (fun _ => none) [] (days_from_civil 2025 1 1 * msPerDay) true
    [teamT1] [gameA, gameB] cacheX [(2023 : Int)] []

/-- The key-distinctness invariant of a JS-object model. -/
def keyNodup {κ α : Type} (l : List (κ × α)) : Prop :=
  l.Pairwise (fun a b => a.1 ≠ b.1)

/-- The keyed fold of _deduplicateGames. -/
def dedupFold (allGames : List EspnGame) : List (Str × EspnGame) :=
  allGames.foldl
    (fun acc g => match gameKey g with
      | some k => aset k g acc
      | none => acc) []

/-- The symmetric no-shared-espn-id relation on games. -/
def espnDistinct (g1 g2 : EspnGame) : Prop :=
  jsTruthy g1.espn_id = true → jsTruthy g2.espn_id = true → g1.espn_id ≠ g2.espn_id

/-- The two-call chain map: a mapped to b, then b mapped to c. -/
def chainMapA : List (Str × List (Str × Str)) :=
  applyMappings (str "football") [(str "a", str "b"), (str "b", str "c")] []

/-- A stand-in digest used only to instantiate the C7 theorem at concrete
inputs. -/
def md5stub : Str → Str := fun _ => str "0123456789abcdef0123456789abcdef"

/-- The frame relation between an input game and its consolidated output:
every field other than the two designated NCAA-id fields is unchanged, a
falsy id field is unchanged, a truthy id field becomes its canonical id,
and a record with both id fields falsy is returned whole. -/
def gameFrame (cm : List (Str × List (Str × Str))) (sport : Str) (g g' : NcaaGame) : Prop :=
  g'.ncaa_game_id = g.ncaa_game_id ∧ g'.date = g.date ∧ g'.season = g.season ∧
  g'.home_team_name = g.home_team_name ∧ g'.opponent_name = g.opponent_name ∧
  g'.internal_team_id = g.internal_team_id ∧ g'.score = g.score ∧
  (jsTruthy g.home_team_ncaa_id = false → g'.home_team_ncaa_id = g.home_team_ncaa_id) ∧
  (jsTruthy g.opponent_ncaa_id = false → g'.opponent_ncaa_id = g.opponent_ncaa_id) ∧
  (sport ≠ [] → jsTruthy g.home_team_ncaa_id = true →
    g'.home_team_ncaa_id = some (getCanonicalNcaaId cm ((g.home_team_ncaa_id).getD []) sport)) ∧
  (sport ≠ [] → jsTruthy g.opponent_ncaa_id = true →
    g'.opponent_ncaa_id = some (getCanonicalNcaaId cm ((g.opponent_ncaa_id).getD []) sport)) ∧
  (jsTruthy g.home_team_ncaa_id = false ∧ jsTruthy g.opponent_ncaa_id = false → g' = g)

/-- The frame relation between an input team and its consolidated output. -/
def teamFrame (cm : List (Str × List (Str × Str))) (sport : Str) (t t' : Team) : Prop :=
  t'.id = t.id ∧ t'.espn_id = t.espn_id ∧ t'.short_name = t.short_name ∧
  t'.full_name = t.full_name ∧ t'.university = t.university ∧ t'.abv = t.abv ∧
  (jsTruthy t.reference_id = false → t' = t) ∧
  (sport ≠ [] → jsTruthy t.reference_id = true →
    t'.reference_id = some (getCanonicalNcaaId cm ((t.reference_id).getD []) sport))

/-- Concrete team bound on both sources, opponent in the consolidation
scenario. -/
def teamTA : Team :=
  { id := some (str "ta"), espn_id := some (str "e1"), reference_id := some (str "100"),
    short_name := some (str "Found U"), full_name := none, university := none, abv := none }

/-- Concrete team whose school also appears under a second NCAA id. -/
def teamTB : Team :=
  { id := some (str "tb"), espn_id := some (str "e2"), reference_id := some (str "555"),
    short_name := some (str "Missing U"), full_name := none, university := none, abv := none }

/-- Concrete NCAA game between an unknown home id 999 named like teamTB
and teamTA's id 100. -/
def ncaaY : NcaaGame :=
  { ncaa_game_id := some (str "gY"), date := some (str "9/1/2023"), season := 2023,
    home_team_ncaa_id := some (str "999"), opponent_ncaa_id := some (str "100"),
    home_team_name := some (str "Missing U"), opponent_name := none,
    internal_team_id := none, score := none }

/-- The consolidation candidates produced from the single game ncaaY. -/
def consolidationRun : List Binding :=
  (processNcaaConsolidations [] [ncaaY] [teamTA, teamTB] []).map Prod.snd

/-- A concrete already-bound espn-to-ncaa candidate. -/
def boundCandidate : Binding :=
  { btype := .espnToNcaa, confidence := .num 5, already_bound := true,
    evidence_games := [], source_ncaa_id := none, target_ncaa_id := none }

/-- Does the string contain a digit, dash, digit substring (the kernel of
the score regex)? -/
def hasDigitDashDigit : Str → Bool
  | a :: b :: c :: rest =>
    (a.isDigit && b = '-' && c.isDigit) || hasDigitDashDigit (b :: c :: rest)
  | _ => false

/-- Checker mirroring rwGo: does every match site of the word-replacement
scanner match exactly the replacement text (so that replacing is the
identity)? -/
def rwId (alts : List Str) (repl : Str) : Nat → Bool → Str → Bool
  | 0, _, _ => true
  | _, _, [] => true
  | fuel + 1, prevW, c :: cs =>
    if !prevW then
      match tryAlts alts (c :: cs) with
      | some (a, rest) => (a = repl) && rwId alts repl fuel (lastIsWord a) rest
      | none => rwId alts repl fuel (wordChar c) cs
    else rwId alts repl fuel (wordChar c) cs

/-- Space-normal-form checker: only plain spaces, no leading or trailing
space, no two spaces in a row.  The flag says whether a space is banned at
the current position (start of string or just after a space). -/
def spaceNormGo : Bool → Str → Bool
  | _, [] => true
  | prevSp, c :: cs =>
    if wsChar c then (c = ' ') && !prevSp && !cs.isEmpty && spaceNormGo true cs
    else spaceNormGo false cs

/-- Space normal form of a whole string. -/
def spaceNormal (s : Str) : Bool := spaceNormGo true s

/-- Stability guard for a cleaned name: already lower-case, free of the
characters the early stages rewrite, a fixed point of each word-rewrite
stage, free of nickname words, and space-normalized.  The C6 theorem
shows cleanName is the identity on such strings. -/
def cleanStable (y : Str) : Bool :=
  y.all (fun c => lowChar c == c) &&
  y.all (fun c => !(c == apo || c == '&' || c == '.' || c == '(' || c == ')' || c == '-')) &&
  rwId [str "st", str "state"] (str "state") y.length false y &&
  rwId [str "saint"] (str "st") y.length false y &&
  rwId [str "mount", str "mt"] (str "mount") y.length false y &&
  rwId [str "california state", str "cal state"] (str "csu") y.length false y &&
  rwId [str "southern illinois"] (str "siu") y.length false y &&
  rwId [str "suny", str "state university of new york"] (str "suny") y.length false y &&
  rwId [str "university of", str "university", str "univ", str "college"] [] y.length false y &&
  rwId [str "at"] [] y.length false y &&
  (jsSplitChar ' ' y).all (fun w => !(commonNicknames.contains w)) &&
  spaceNormal y

/-! ### Association-list lemmas -/

theorem mem_aset {κ α : Type} [DecidableEq κ] (k : κ) (v : α) (l : List (κ × α)) :
    ∀ kv ∈ aset k v l, kv = (k, v) ∨ kv ∈ l := by
  induction l with
  | nil => intro kv h; simp [aset] at h; left; exact h
  | cons hd tl ih =>
    intro kv h
    by_cases hk : hd.1 = k
    · rw [show aset k v (hd :: tl) = (k, v) :: tl by simp [aset, hk]] at h
      rcases List.mem_cons.mp h with h | h
      · left; exact h
      · right; exact List.mem_cons_of_mem _ h
    · rw [show aset k v (hd :: tl) = hd :: aset k v tl by simp [aset, hk]] at h
      rcases List.mem_cons.mp h with h | h
      · right; exact h ▸ List.mem_cons_self _ _
      · rcases ih kv h with h' | h'
        · left; exact h'
        · right; exact List.mem_cons_of_mem _ h'

theorem alookup_mem {κ α : Type} [DecidableEq κ] (k : κ) (l : List (κ × α)) (v : α)
    (h : alookup k l = some v) : (k, v) ∈ l := by
  induction l with
  | nil => simp [alookup] at h
  | cons hd tl ih =>
    obtain ⟨k', v'⟩ := hd
    by_cases hk : k' = k
    · simp [alookup, hk] at h
      exact List.mem_cons.mpr (Or.inl (by rw [hk, h]))
    · simp [alookup, hk] at h
      exact List.mem_cons_of_mem _ (ih h)

theorem alookup_none_of_keys {κ α : Type} [DecidableEq κ] (k : κ) (l : List (κ × α))
    (h : ∀ kv ∈ l, kv.1 ≠ k) : alookup k l = none := by
  induction l with
  | nil => rfl
  | cons hd tl ih =>
    have h1 : hd.1 ≠ k := h hd (List.mem_cons_self _ _)
    obtain ⟨k', v'⟩ := hd
    simp only [alookup, if_neg h1]
    exact ih (fun kv hm => h kv (List.mem_cons_of_mem _ hm))

theorem keyNodup_aset {κ α : Type} [DecidableEq κ] (k : κ) (v : α) (l : List (κ × α))
    (h : keyNodup l) : keyNodup (aset k v l) := by
  induction l with
  | nil =>
    simp only [aset, keyNodup]
    exact List.pairwise_singleton _ _
  | cons hd tl ih =>
    rw [keyNodup, List.pairwise_cons] at h
    obtain ⟨hhd, htl⟩ := h
    by_cases hk : hd.1 = k
    · rw [show aset k v (hd :: tl) = (k, v) :: tl by simp [aset, hk]]
      rw [keyNodup, List.pairwise_cons]
      exact ⟨fun b hb => hk ▸ hhd b hb, htl⟩
    · rw [show aset k v (hd :: tl) = hd :: aset k v tl by simp [aset, hk]]
      rw [keyNodup, List.pairwise_cons]
      refine ⟨fun b hb => ?_, ih htl⟩
      rcases mem_aset k v tl b hb with h' | h'
      · rw [h']; exact hk
      · exact hhd b h'

/-! ### Deduplication lemmas -/

theorem insertByKey_perm (g : EspnGame) (l : List EspnGame) :
    (insertByKey g l).Perm (g :: l) := by
  induction l with
  | nil => simp [insertByKey]
  | cons hd tl ih =>
    by_cases hlt : sortKey g < sortKey hd
    · simp [insertByKey, hlt]
    · simp [insertByKey, hlt]
      exact ((ih.cons hd).trans (List.Perm.swap g hd tl))

theorem sortByDate_perm (l : List EspnGame) : (sortByDate l).Perm l := by
  suffices h : ∀ acc : List EspnGame,
      (l.foldl (fun acc g => insertByKey g acc) acc).Perm (l.reverse ++ acc) by
    have := h []
    simpa [sortByDate] using this.trans (by simp)
  induction l with
  | nil => intro acc; simp
  | cons hd tl ih =>
    intro acc
    simp only [List.foldl_cons]
    refine (ih (insertByKey hd acc)).trans ?_
    have h1 : (insertByKey hd acc).Perm (hd :: acc) := insertByKey_perm hd acc
    calc (tl.reverse ++ insertByKey hd acc).Perm (tl.reverse ++ (hd :: acc)) :=
        List.Perm.append_left _ h1
      _ = (tl.reverse ++ [hd]) ++ acc := by simp
      _ = (hd :: tl).reverse ++ acc := by simp

theorem gameKey_espn (g : EspnGame) (h : jsTruthy g.espn_id = true) :
    gameKey g = g.espn_id := by
  simp [gameKey, h]

theorem deduplicateGames_eq (allGames : List EspnGame) :
    deduplicateGames allGames = sortByDate ((dedupFold allGames).map Prod.snd) := rfl

theorem dedupFold_invariant (allGames : List EspnGame) :
    keyNodup (dedupFold allGames) ∧
      ∀ kv ∈ dedupFold allGames, gameKey kv.2 = some kv.1 := by
  suffices h : ∀ acc : List (Str × EspnGame), keyNodup acc →
      (∀ kv ∈ acc, gameKey kv.2 = some kv.1) →
      keyNodup (allGames.foldl
        (fun acc g => match gameKey g with
          | some k => aset k g acc
          | none => acc) acc) ∧
      ∀ kv ∈ allGames.foldl
        (fun acc g => match gameKey g with
          | some k => aset k g acc
          | none => acc) acc, gameKey kv.2 = some kv.1 by
    exact h [] (by simp [keyNodup]) (by simp)
  induction allGames with
  | nil => intro acc h1 h2; exact ⟨h1, h2⟩
  | cons hd tl ih =>
    intro acc h1 h2
    simp only [List.foldl_cons]
    cases hk : gameKey hd with
    | none => exact ih acc h1 h2
    | some k =>
      refine ih (aset k hd acc) (keyNodup_aset k hd acc h1) ?_
      intro kv hm
      rcases mem_aset k hd acc kv hm with h' | h'
      · rw [h']; exact hk
      · exact h2 kv h'

theorem espnDistinct_symm : Symmetric espnDistinct := by
  intro g1 g2 h ht2 ht1 he
  exact h ht1 ht2 he.symm

/-- C1 (amended): in the output of _deduplicateGames no two distinct game
records carry the same truthy ESPN identifier: the deduplication key of a
game with a truthy espn_id is that espn_id, and the keyed map holds one
game per key.  (The original at-most-one claim for the Source-B
reference_id fails, see the counterexample.) -/
theorem C1_espn_unique (allGames : List EspnGame) :
    (deduplicateGames allGames).Pairwise espnDistinct := by
  obtain ⟨hnd, hcons⟩ := dedupFold_invariant allGames
  have hmap : ((dedupFold allGames).map Prod.snd).Pairwise espnDistinct := by
    rw [List.pairwise_map]
    refine List.Pairwise.imp_of_mem ?_ hnd
    intro p q hp hq hne
    intro ht1 ht2 he
    have k1 := hcons p hp
    have k2 := hcons q hq
    rw [gameKey_espn p.2 ht1] at k1
    rw [gameKey_espn q.2 ht2] at k2
    exact hne (Option.some_injective _ (k1.symm.trans (he.trans k2)))
  rw [deduplicateGames_eq]
  exact ((sortByDate_perm _).pairwise_iff (fun h => espnDistinct_symm h)).mpr hmap

/-- C1 (witness): the espn-id uniqueness theorem applied to the concrete
two-game list of the counterexample scenario. -/
theorem C1_witness : List.Pairwise espnDistinct (deduplicateGames [gameA, gameB]) :=
  C1_espn_unique [gameA, gameB]

/-- C1 (counterexample): the resolved-games pipeline can attach one NCAA
game id (reference_id) to two distinct final game records: the per-team
pass matches it to one ESPN game, the global fallback pass starts with an
empty consumed-id set and matches it again to another ESPN game, and final
deduplication keys the two records by their distinct ESPN ids, keeping
both. -/
theorem C1_counterexample :
    ∃ g1 ∈ dupRefRun, ∃ g2 ∈ dupRefRun,
      g1 ≠ g2 ∧ g1.reference_id ≠ none ∧ g1.reference_id = g2.reference_id := by
  decide

/-- C2 (amended): the date-window behaviour of _isMatch.  Pairs more than
7 days apart never match; with no known NCAA id nothing matches; within
1.5 days agreement of one known id with either side suffices; between 1.5
and 7 days, when both teams' ids are known both sides must agree, but when
only one id is known a single-sided agreement still produces a match (the
original claim's no-match clause for this case is what fails). -/
theorem C2_isMatch_windows (e n : Int) (ht aw : Option Team) (g : NcaaGame) :
    ((((e - n).natAbs : Int) > 7 * msPerDay) → isMatch e n ht aw g = false) ∧
    (knownIds ht aw = [] → isMatch e n ht aw g = false) ∧
    (((e - n).natAbs : Int) ≤ 129600000 → knownIds ht aw ≠ [] →
      isMatch e n ht aw g =
        (agreesWith (knownIds ht aw) g.home_team_ncaa_id ||
          agreesWith (knownIds ht aw) g.opponent_ncaa_id)) ∧
    (129600000 < ((e - n).natAbs : Int) → ((e - n).natAbs : Int) ≤ 7 * msPerDay →
      (knownIds ht aw).length = 2 →
      isMatch e n ht aw g =
        (agreesWith (knownIds ht aw) g.home_team_ncaa_id &&
          agreesWith (knownIds ht aw) g.opponent_ncaa_id)) ∧
    (129600000 < ((e - n).natAbs : Int) → ((e - n).natAbs : Int) ≤ 7 * msPerDay →
      (knownIds ht aw).length = 1 →
      isMatch e n ht aw g =
        (agreesWith (knownIds ht aw) g.home_team_ncaa_id ||
          agreesWith (knownIds ht aw) g.opponent_ncaa_id)) := by
  refine ⟨?_, ?_, ?_, ?_, ?_⟩
  · intro h
    simp only [isMatch]
    rw [if_pos h]
  · intro h
    simp [isMatch, h]
  · intro h hne
    simp only [isMatch]
    rw [if_neg (by simp only [msPerDay]; omega),
      if_neg (by simp [List.isEmpty_iff, hne]), if_pos h]
  · intro h1 h2 hlen
    simp only [isMatch]
    rw [if_neg (by omega),
      if_neg (by rw [List.isEmpty_iff]; intro he; rw [he] at hlen; simp at hlen),
      if_neg (by omega), if_pos hlen]
  · intro h1 h2 hlen
    simp only [isMatch]
    rw [if_neg (by omega),
      if_neg (by rw [List.isEmpty_iff]; intro he; rw [he] at hlen; simp at hlen),
      if_neg (by omega), if_neg (by omega)]

/-- C2 (counterexample): an ESPN/NCAA pair exactly 2 days apart with only
one known NCAA id is matched by _isMatch on that single id, although the
claim requires both-id agreement (hence no match) beyond 1.5 days. -/
theorem C2_counterexample :
    isMatch (2 * msPerDay) 0 (some teamT1) none ncaaX = true ∧
    (knownIds (some teamT1) none).length = 1 ∧
    129600000 < ((2 * msPerDay - 0 : Int).natAbs : Int) ∧
    ((2 * msPerDay - 0 : Int).natAbs : Int) ≤ 7 * msPerDay := by
  decide

/-- C2 (witness): the single-known-id clause of the window theorem applied
at the counterexample's concrete inputs. -/
theorem C2_witness :
    isMatch (2 * msPerDay) 0 (some teamT1) none ncaaX =
      (agreesWith (knownIds (some teamT1) none) ncaaX.home_team_ncaa_id ||
        agreesWith (knownIds (some teamT1) none) ncaaX.opponent_ncaa_id) :=
  (C2_isMatch_windows (2 * msPerDay) 0 (some teamT1) none ncaaX).2.2.2.2
    (by decide) (by decide) (by decide)

/-! ### Resolver lemmas -/

theorem alookup_aset_self {κ α : Type} [DecidableEq κ] (k : κ) (v : α) (l : List (κ × α)) :
    alookup k (aset k v l) = some v := by
  induction l with
  | nil => simp [aset, alookup]
  | cons hd tl ih =>
    by_cases hk : hd.1 = k
    · simp [aset, hk, alookup]
    · simp [aset, hk, alookup, ih]

theorem resolveGuard (m : List (Str × List (Str × Str))) (id sport : Str)
    (h : id = [] ∨ sport = []) : getCanonicalNcaaId m id sport = id := by
  rcases h with h | h <;> simp [getCanonicalNcaaId, h]

theorem resolveMiss (m : List (Str × List (Str × Str))) (id sport : Str)
    (hid : id ≠ []) (hs : sport ≠ [])
    (h : alookup id ((alookup sport m).getD []) = none) :
    getCanonicalNcaaId m id sport = id := by
  simp [getCanonicalNcaaId, List.isEmpty_iff, hid, hs, h]

theorem resolveHit (m : List (Str × List (Str × Str))) (id sport v : Str)
    (hid : id ≠ []) (hs : sport ≠ [])
    (h : alookup id ((alookup sport m).getD []) = some v) (hv : v ≠ []) :
    getCanonicalNcaaId m id sport = v := by
  simp [getCanonicalNcaaId, List.isEmpty_iff, hid, hs, h, hv]

theorem resolveHitEmpty (m : List (Str × List (Str × Str))) (id sport v : Str)
    (h : alookup id ((alookup sport m).getD []) = some v) (hv : v = []) :
    getCanonicalNcaaId m id sport = id := by
  by_cases hid : id = []
  · exact resolveGuard m id sport (Or.inl hid)
  · by_cases hs : sport = []
    · exact resolveGuard m id sport (Or.inr hs)
    · simp [getCanonicalNcaaId, List.isEmpty_iff, hid, hs, h, hv]

/-- C8 (amended): getCanonicalNcaaId is a total resolver: a falsy id or
sport is returned unchanged; a present entry with a non-empty value
resolves to that value; a missing entry resolves to the id; and a present
entry whose value is the empty string also resolves to the id (the
original claim returned the mapped value for every present entry; a
missing or unloadable map is the empty map, covered by the missing-entry
clause). -/
theorem C8_resolver_total (m : List (Str × List (Str × Str))) (id sport : Str) :
    (id = [] ∨ sport = [] → getCanonicalNcaaId m id sport = id) ∧
    (∀ v, id ≠ [] → sport ≠ [] →
      alookup id ((alookup sport m).getD []) = some v → v ≠ [] →
      getCanonicalNcaaId m id sport = v) ∧
    (id ≠ [] → sport ≠ [] → alookup id ((alookup sport m).getD []) = none →
      getCanonicalNcaaId m id sport = id) ∧
    (∀ v, alookup id ((alookup sport m).getD []) = some v → v = [] →
      getCanonicalNcaaId m id sport = id) :=
  ⟨resolveGuard m id sport,
   fun v hid hs h hv => resolveHit m id sport v hid hs h hv,
   fun hid hs h => resolveMiss m id sport hid hs h,
   fun v h hv => resolveHitEmpty m id sport v h hv⟩

/-- C8 (counterexample): a present consolidation entry whose stored value
is the empty string is not returned; the resolver falls back to the input
id, contrary to the claim that a present entry's mapped value is always
returned. -/
theorem C8_counterexample :
    alookup (str "x") ((alookup (str "football")
      [(str "football", [(str "x", ([] : Str))])]).getD []) = some [] ∧
    getCanonicalNcaaId [(str "football", [(str "x", ([] : Str))])] (str "x")
      (str "football") = str "x" ∧
    str "x" ≠ ([] : Str) := by
  decide

/-- C8 (witness): the present-entry clause of the resolver theorem at a
concrete one-entry map. -/
theorem C8_witness :
    getCanonicalNcaaId [(str "football", [(str "a", str "b")])] (str "a") (str "football") =
      str "b" :=
  (C8_resolver_total [(str "football", [(str "a", str "b")])] (str "a") (str "football")).2.1
    (str "b") (by decide) (by decide) (by decide) (by decide)

/-! ### Consolidation-map chains (C4) -/

/-- C4 (counterexample): adding a duplicate mapping whose duplicate id
equals an already-stored value creates a chain: after add(a,b) and then
add(b,c), the value b stored under a is itself a key, and resolving a
twice gives c while resolving it once gives b, refuting the claimed
depth-two forest and lookup idempotence. -/
theorem C4_counterexample :
    alookup (str "a") ((alookup (str "football") chainMapA).getD []) = some (str "b") ∧
    alookup (str "b") ((alookup (str "football") chainMapA).getD []) = some (str "c") ∧
    getCanonicalNcaaId chainMapA
        (getCanonicalNcaaId chainMapA (str "a") (str "football")) (str "football") ≠
      getCanonicalNcaaId chainMapA (str "a") (str "football") := by
  decide

theorem applyMappings_inv (sport : Str) (hs : sport ≠ []) (D C : Str → Prop)
    (hdc : ∀ x, D x → C x → False)
    (cs : List (Str × Str)) (hcs : ∀ p ∈ cs, D p.1 ∧ C p.2)
    (m : List (Str × List (Str × Str)))
    (hm : ∀ kv ∈ (alookup sport m).getD [], D kv.1 ∧ C kv.2) :
    ∀ kv ∈ (alookup sport (applyMappings sport cs m)).getD [], D kv.1 ∧ C kv.2 := by
  induction cs generalizing m with
  | nil => exact hm
  | cons hd rest ih =>
    obtain ⟨d, c⟩ := hd
    have hd1 : D d ∧ C c := hcs (d, c) (List.mem_cons_self _ _)
    have hrest : ∀ p ∈ rest, D p.1 ∧ C p.2 :=
      fun p hp => hcs p (List.mem_cons_of_mem _ hp)
    have hsm : applyMappings sport ((d, c) :: rest) m =
        applyMappings sport rest
          (aset sport (aset d (getCanonicalNcaaId m c sport)
            ((alookup sport m).getD [])) m) := by
      simp [applyMappings, addDuplicateMapping, List.isEmpty_iff, hs]
    rw [hsm]
    refine ih hrest _ ?_
    have hres : getCanonicalNcaaId m c sport = c := by
      by_cases hc : c = []
      · exact resolveGuard m c sport (Or.inl hc)
      · refine resolveMiss m c sport hc hs (alookup_none_of_keys c _ ?_)
        intro kv hkv hk
        exact hdc c (hk ▸ (hm kv hkv).1) hd1.2
    rw [alookup_aset_self]
    simp only [Option.getD_some]
    intro kv hkv
    rcases mem_aset d (getCanonicalNcaaId m c sport) _ kv hkv with h' | h'
    · rw [h', hres]
      exact hd1
    · exact hm kv h'

/-- C4 (amended): when the duplicate ids of a call sequence are disjoint
from its canonical target ids, the insert-time resolution does keep the
map flat: no stored value is a stored key and resolution is idempotent
(resolution itself is always a single lookup by the shape of
getCanonicalNcaaId).  In general the original claim fails, because a later
call may use an already-stored value as its duplicate id, see the
counterexample. -/
theorem C4_disjoint_idempotent (sport : Str) (hs : sport ≠ [])
    (calls : List (Str × Str))
    (hdisj : ∀ p ∈ calls, ∀ q ∈ calls, p.1 ≠ q.2) :
    (∀ kv ∈ (alookup sport (applyMappings sport calls [])).getD [],
      ∀ kv' ∈ (alookup sport (applyMappings sport calls [])).getD [], kv.2 ≠ kv'.1) ∧
    (∀ id, getCanonicalNcaaId (applyMappings sport calls [])
        (getCanonicalNcaaId (applyMappings sport calls []) id sport) sport =
      getCanonicalNcaaId (applyMappings sport calls []) id sport) := by
  have hinv := applyMappings_inv sport hs
    (fun x => ∃ p ∈ calls, p.1 = x) (fun x => ∃ p ∈ calls, p.2 = x)
    (by
      rintro x ⟨p, hp, hpx⟩ ⟨q, hq, hqx⟩
      exact hdisj p hp q hq (hpx.trans hqx.symm))
    calls (fun p hp => ⟨⟨p, hp, rfl⟩, ⟨p, hp, rfl⟩⟩) []
    (by simp [alookup])
  have hdc : ∀ x, (∃ p ∈ calls, p.1 = x) → (∃ p ∈ calls, p.2 = x) → False := by
    rintro x ⟨p, hp, hpx⟩ ⟨q, hq, hqx⟩
    exact hdisj p hp q hq (hpx.trans hqx.symm)
  constructor
  · intro kv hkv kv' hkv' he
    exact hdc kv.2 (he ▸ (hinv kv' hkv').1) (hinv kv hkv).2
  · intro id
    by_cases hsp : sport = []
    · exact absurd hsp hs
    by_cases hid : id = []
    · rw [resolveGuard _ id sport (Or.inl hid), resolveGuard _ id sport (Or.inl hid)]
    cases hl : alookup id ((alookup sport (applyMappings sport calls [])).getD []) with
    | none => rw [resolveMiss _ id sport hid hs hl, resolveMiss _ id sport hid hs hl]
    | some v =>
      by_cases hv : v = []
      · rw [resolveHitEmpty _ id sport v hl hv, resolveHitEmpty _ id sport v hl hv]
      · rw [resolveHit _ id sport v hid hs hl hv]
        have hCv : ∃ p ∈ calls, p.2 = v := (hinv (id, v) (alookup_mem _ _ _ hl)).2
        refine resolveMiss _ v sport hv hs (alookup_none_of_keys v _ ?_)
        intro kv hkv hk
        exact hdc v (hk ▸ (hinv kv hkv).1) hCv

/-- C4 (witness): the disjoint-calls idempotence theorem applied to the
concrete call sequence add(a,b), add(x,c). -/
theorem C4_witness :
    getCanonicalNcaaId (applyMappings (str "football") [(str "a", str "b"), (str "x", str "c")] [])
        (getCanonicalNcaaId
          (applyMappings (str "football") [(str "a", str "b"), (str "x", str "c")] [])
          (str "a") (str "football")) (str "football") =
      getCanonicalNcaaId
        (applyMappings (str "football") [(str "a", str "b"), (str "x", str "c")] [])
        (str "a") (str "football") :=
  (C4_disjoint_idempotent (str "football") (by decide)
    [(str "a", str "b"), (str "x", str "c")] (by decide)).2 (str "a")

/-! ### Token-overlap matching (C5) -/

theorem jsSplitChar_ne_nil (sep : Char) (s : Str) : jsSplitChar sep s ≠ [] := by
  cases s with
  | nil => simp [jsSplitChar]
  | cons c cs =>
    simp only [jsSplitChar]
    by_cases hc : c = sep
    · simp [hc]
    · simp only [if_neg hc]
      cases jsSplitChar sep cs <;> simp

theorem setList_length_ge (l : List Str) :
    ∀ acc : List Str,
      acc.length ≤ (l.foldl (fun acc w => if acc.contains w then acc else acc ++ [w]) acc).length := by
  induction l with
  | nil => intro acc; simp
  | cons hd tl ih =>
    intro acc
    simp only [List.foldl_cons]
    rcases Bool.eq_false_or_eq_true (acc.contains hd) with hc | hc
    · rw [if_pos hc]
      exact ih acc
    · rw [if_neg (by rw [hc]; simp)]
      calc acc.length ≤ (acc ++ [hd]).length := by simp
        _ ≤ _ := ih (acc ++ [hd])

theorem tokenSet_pos (n : Option Str) : 0 < (tokenSet n).length := by
  have h1 : jsSplitChar ' ' (cleanName n) ≠ [] := jsSplitChar_ne_nil _ _
  obtain ⟨x, xs, hx⟩ : ∃ x xs, jsSplitChar ' ' (cleanName n) = x :: xs := by
    cases he : jsSplitChar ' ' (cleanName n) with
    | nil => exact absurd he h1
    | cons x xs => exact ⟨x, xs, rfl⟩
  have h2 := setList_length_ge xs [x]
  simp only [tokenSet, setList, hx, List.foldl_cons]
  have hfirst : ([] : List Str).contains x = false := rfl
  simp only [List.foldl_cons, hfirst]
  calc 0 < ([x] : List Str).length := by simp
    _ ≤ _ := by simpa using h2

theorem minTokens_pos (n1 n2 : Option Str) : 0 < minTokens n1 n2 :=
  lt_min (tokenSet_pos n1) (tokenSet_pos n2)

theorem ratio_gt_iff (a b : ℕ) (hb : 0 < b) :
    5 * a > 4 * b ↔ ((a : ℚ) / (b : ℚ) > 4 / 5) := by
  rw [gt_iff_lt, gt_iff_lt, div_lt_div_iff₀ (by norm_num) (by exact_mod_cast hb)]
  constructor
  · intro h
    have : (4 * b : ℕ) < a * 5 := by omega
    exact_mod_cast this
  · intro h
    have : (4 * b : ℕ) < a * 5 := by exact_mod_cast h
    omega

/-- C5 (amended): the cross-sport name matcher accepts a pair exactly when
both names are truthy and either the cleaned names are identical or the
token-set overlap, relative to the smaller token set, is STRICTLY greater
than 80 percent (the claim's at-least-80 threshold is what fails: an exact
4/5 overlap is rejected). -/
theorem C5_isSafeMatch_characterization (n1 n2 : Option Str) :
    isSafeMatch n1 n2 = true ↔
      jsTruthy n1 = true ∧ jsTruthy n2 = true ∧
        (cleanName n1 = cleanName n2 ∨
          ((overlapCount n1 n2 : ℚ) / (minTokens n1 n2 : ℚ) > 4 / 5)) := by
  by_cases h1 : jsTruthy n1
  · by_cases h2 : jsTruthy n2
    · by_cases heq : cleanName n1 = cleanName n2
      · simp [isSafeMatch, h1, h2, heq]
      · rw [show isSafeMatch n1 n2 = decide (5 * overlapCount n1 n2 > 4 * minTokens n1 n2) by
            simp [isSafeMatch, h1, h2, heq]]
        rw [decide_eq_true_iff, ratio_gt_iff _ _ (minTokens_pos n1 n2)]
        simp [h1, h2, heq]
    · simp [isSafeMatch, h1, h2]
  · simp [isSafeMatch, h1]

/-- C5 (counterexample): two cleaned five-token names sharing exactly four
tokens have exactly 80 percent overlap relative to the smaller token set,
yet isSafeMatch rejects them, refuting the claimed acceptance at at-least
80 percent. -/
theorem C5_counterexample :
    isSafeMatch (some (str "alpha beta gamma delta epsilon"))
        (some (str "alpha beta gamma delta zeta")) = false ∧
    cleanName (some (str "alpha beta gamma delta epsilon")) ≠
      cleanName (some (str "alpha beta gamma delta zeta")) ∧
    overlapCount (some (str "alpha beta gamma delta epsilon"))
        (some (str "alpha beta gamma delta zeta")) = 4 ∧
    minTokens (some (str "alpha beta gamma delta epsilon"))
        (some (str "alpha beta gamma delta zeta")) = 5 := by
  decide

/-- C5 (witness): the characterization applied to a concrete identical
pair. -/
theorem C5_witness : isSafeMatch (some (str "duke")) (some (str "duke")) = true :=
  (C5_isSafeMatch_characterization (some (str "duke")) (some (str "duke"))).mpr
    ⟨by decide, by decide, Or.inl rfl⟩

/-! ### Identifier generation (C7) -/

theorem jsToUpper_length (s : Str) : (jsToUpper s).length = s.length :=
  List.length_map s upChar

/-- C7: generateId is a pure function of its two inputs for any fixed
digest: equal inputs give byte-identical identifiers across invocations
and runs; a falsy ESPN id gives null; every produced identifier has
exactly 8 characters (given the 32-hex-character md5 digest); and when an
abbreviation of at least two characters is available the identifier is
prefixed by its first two letters upper-cased. -/
theorem C7_generateId_deterministic (h : Str → Str) (hlen : ∀ s, (h s).length = 32) :
    (∀ e a e' a', e = e' → a = a' → generateId h e a = generateId h e' a') ∧
    (∀ e a, jsTruthy e = false → generateId h e a = none) ∧
    (∀ e a out, generateId h e a = some out → out.length = 8) ∧
    (∀ e a out ab, generateId h e a = some out → a = some ab → ab.length ≥ 2 →
      out.take 2 = jsToUpper (ab.take 2)) := by
  refine ⟨?_, ?_, ?_, ?_⟩
  · intro e a e' a' he ha
    rw [he, ha]
  · intro e a ht
    simp [generateId, ht]
  · intro e a out hsome
    cases hte : jsTruthy e with
    | false => simp [generateId, hte] at hsome
    | true =>
      simp only [generateId, hte, Bool.not_true, Bool.false_eq_true, if_false,
        Option.some.injEq] at hsome
      rw [← hsome]
      by_cases hcond : jsTruthy a = true ∧ 2 ≤ (a.getD []).length
      · rw [if_pos (by simpa using hcond)]
        have h2 : 2 ≤ (a.getD []).length := hcond.2
        simp only [List.length_append, jsToUpper_length, List.length_take,
          List.length_drop, hlen]
        omega
      · rw [if_neg (by simpa using hcond)]
        simp only [List.length_append, jsToUpper_length, List.length_take,
          List.length_drop, hlen]
        omega
  · intro e a out ab hsome hab hlen2
    cases hte : jsTruthy e with
    | false => simp [generateId, hte] at hsome
    | true =>
      have htr : jsTruthy a = true := by
        rw [hab]
        cases ab with
        | nil => simp at hlen2
        | cons c cs => simp [jsTruthy]
      simp only [generateId, hte, Bool.not_true, Bool.false_eq_true, if_false,
        Option.some.injEq] at hsome
      rw [← hsome]
      rw [if_pos (by
        rw [Bool.and_eq_true, decide_eq_true_iff]
        exact ⟨htr, by rw [hab]; simpa using hlen2⟩)]
      rw [hab]
      simp only [Option.getD_some]
      have hplen : (jsToUpper (ab.take 2)).length = 2 := by
        rw [jsToUpper_length, List.length_take]
        omega
      generalize hp : jsToUpper (List.take 2 ab) = p at hplen ⊢
      rw [← hplen, List.take_left]

/-- C7 (witness): the generateId theorem instantiated at a concrete digest
function, ESPN id and abbreviation. -/
theorem C7_witness :
    generateId md5stub (some (str "1")) (some (str "ab")) = some (str "AB234567") ∧
    (str "AB234567").length = 8 :=
  ⟨by decide,
   (C7_generateId_deterministic md5stub (fun _ => rfl)).2.2.1
     (some (str "1")) (some (str "ab")) (str "AB234567") (by decide)⟩

/-! ### Consolidation frame property (C10) -/

theorem consolidateGame_frame (cm : List (Str × List (Str × Str))) (sport : Str)
    (g : NcaaGame) : gameFrame cm sport g (consolidateGame cm sport g) := by
  cases h1 : jsTruthy g.home_team_ncaa_id <;> cases h2 : jsTruthy g.opponent_ncaa_id <;>
    simp [gameFrame, consolidateGame, h1, h2]

theorem consolidateTeam_frame (cm : List (Str × List (Str × Str))) (sport : Str)
    (t : Team) : teamFrame cm sport t (consolidateTeam cm sport t) := by
  cases h1 : jsTruthy t.reference_id <;> simp [teamFrame, consolidateTeam, h1]

theorem gameFrame_refl (cm : List (Str × List (Str × Str))) (g : NcaaGame) :
    gameFrame cm [] g g := by
  simp [gameFrame]

theorem teamFrame_refl (cm : List (Str × List (Str × Str))) (t : Team) :
    teamFrame cm [] t t := by
  simp [teamFrame]

/-- C10: the consolidation passes are frame-preserving: with a falsy sport
both return their input list unchanged; otherwise they return a list of
the same length whose i-th record agrees with the i-th input record on
every field other than the designated NCAA-id fields, leaves falsy id
fields (and whole records with no id) unchanged, and replaces truthy id
fields by their canonical ids. -/
theorem C10_consolidation_frame (cm : List (Str × List (Str × Str))) (sport : Str)
    (games : List NcaaGame) (teamsData : List Team) :
    (sport = [] → consolidateGamesNcaaIds cm games sport = games ∧
      consolidateTeamsNcaaIds cm teamsData sport = teamsData) ∧
    (consolidateGamesNcaaIds cm games sport).length = games.length ∧
    (consolidateTeamsNcaaIds cm teamsData sport).length = teamsData.length ∧
    List.Forall₂ (gameFrame cm sport) games (consolidateGamesNcaaIds cm games sport) ∧
    List.Forall₂ (teamFrame cm sport) teamsData (consolidateTeamsNcaaIds cm teamsData sport) := by
  by_cases hsp : sport = []
  · subst hsp
    refine ⟨fun _ => ⟨rfl, rfl⟩, rfl, rfl, ?_, ?_⟩
    · rw [show consolidateGamesNcaaIds cm games [] = games from rfl, List.forall₂_same]
      intro g _
      exact gameFrame_refl cm g
    · rw [show consolidateTeamsNcaaIds cm teamsData [] = teamsData from rfl, List.forall₂_same]
      intro t _
      exact teamFrame_refl cm t
  · have hne : sport.isEmpty = false := by
      cases sport with
      | nil => exact absurd rfl hsp
      | cons c cs => rfl
    have hg : consolidateGamesNcaaIds cm games sport = games.map (consolidateGame cm sport) := by
      simp [consolidateGamesNcaaIds, hne]
    have ht : consolidateTeamsNcaaIds cm teamsData sport =
        teamsData.map (consolidateTeam cm sport) := by
      simp [consolidateTeamsNcaaIds, hne]
    refine ⟨fun h => absurd h hsp, ?_, ?_, ?_, ?_⟩
    · rw [hg, List.length_map]
    · rw [ht, List.length_map]
    · rw [hg, List.forall₂_map_right_iff, List.forall₂_same]
      intro g _
      exact consolidateGame_frame cm sport g
    · rw [ht, List.forall₂_map_right_iff, List.forall₂_same]
      intro t _
      exact consolidateTeam_frame cm sport t

/-- C10 (witness): the frame theorem applied to a concrete one-game,
one-team input at a concrete map, extracting the falsy-sport clause and
the lengths. -/
theorem C10_witness :
    consolidateGamesNcaaIds [] [ncaaX] [] = [ncaaX] ∧
    consolidateTeamsNcaaIds [] [teamT1] [] = [teamT1] ∧
    (consolidateGamesNcaaIds [] [ncaaX] (str "football")).length = 1 :=
  ⟨(C10_consolidation_frame [] [] [ncaaX] [teamT1]).1 rfl |>.1,
   (C10_consolidation_frame [] [] [ncaaX] [teamT1]).1 rfl |>.2,
   (C10_consolidation_frame [] (str "football") [ncaaX] [teamT1]).2.1⟩

/-! ### Binding discovery and promotion (C3) -/

/-- C3 (counterexample): a single corroborating game yields an NCAA
consolidation candidate of confidence 1, and the researchable filter
already promotes it, refuting the claimed confidence-at-least-2 gate for
consolidation candidates. -/
theorem C3_counterexample :
    consolidationRun.length = 1 ∧
    (∀ b ∈ consolidationRun,
      b.btype = .ncaaConsolidation ∧ b.confidence = .num 1 ∧ researchable b = true) ∧
    researchableBindings consolidationRun = consolidationRun := by
  decide

theorem ppc_conf_inv (cm : List (Str × List (Str × Str))) (tbn : List (Str × Team))
    (pbm : List (Str × Binding)) (found : Option Team) (mid mname : Option Str)
    (ng : NcaaGame)
    (hp : ∀ kb ∈ pbm, kb.2.confidence = .num kb.2.evidence_games.length) :
    ∀ kb ∈ processPotentialConsolidation cm tbn pbm found mid mname ng,
      kb.2.confidence = .num kb.2.evidence_games.length := by
  intro kb hkb
  simp only [processPotentialConsolidation] at hkb
  split_ifs at hkb with h1 h2
  · exact hp kb hkb
  · exact hp kb hkb
  · rcases halk : alookup (jsTrim (jsToLower (mname.getD []))) tbn with _ | pm
    · rw [halk] at hkb
      exact hp kb hkb
    · rw [halk] at hkb
      simp only at hkb
      split_ifs at hkb with h3
      · exact hp kb hkb
      · rcases mem_aset _ _ _ kb hkb with h' | h'
        · rw [h']
        · exact hp kb h'

theorem processNcaaConsolidations_conf_inv (cm : List (Str × List (Str × Str)))
    (gamesL : List NcaaGame) (teams : List Team) (pbm0 : List (Str × Binding))
    (hp : ∀ kb ∈ pbm0, kb.2.confidence = .num kb.2.evidence_games.length) :
    ∀ kb ∈ processNcaaConsolidations cm gamesL teams pbm0,
      kb.2.confidence = .num kb.2.evidence_games.length := by
  simp only [processNcaaConsolidations]
  induction gamesL generalizing pbm0 with
  | nil => exact hp
  | cons hd tl ih =>
    simp only [List.foldl_cons]
    apply ih
    split_ifs <;>
      first
        | exact hp
        | exact ppc_conf_inv _ _ _ _ _ _ _ hp
        | exact ppc_conf_inv _ _ _ _ _ _ _ (ppc_conf_inv _ _ _ _ _ _ _ hp)

/-- C3 (amended): binding candidates carry an evidence list and their
confidence always equals its length (one increment per corroborating
game); the researchable filter promotes an espn-to-ncaa candidate exactly
when it is not already bound and has confidence at least 2, promotes an
NCAA consolidation candidate as soon as its confidence is at least 1 (not
2 as originally claimed), and never promotes an already-bound
espn-to-ncaa or legacy candidate. -/
theorem C3_binding_promotion :
    (∀ b : Binding, researchable b = true ↔
      ((b.btype = .espnToNcaa ∧ b.already_bound = false ∧ confAtLeast 2 b.confidence = true) ∨
       (b.btype = .ncaaConsolidation ∧ confAtLeast 1 b.confidence = true) ∨
       (b.btype = .legacy ∧ b.already_bound = false ∧
         (b.confidence = .level (str "high") ∨ b.confidence = .level (str "medium") ∨
           confAtLeast 2 b.confidence = true)))) ∧
    (∀ b : Binding, b.btype ≠ .ncaaConsolidation → b.already_bound = true →
      researchable b = false) ∧
    (∀ cm gamesL teams pbm0,
      (∀ kb ∈ pbm0, kb.2.confidence = Confidence.num kb.2.evidence_games.length) →
      ∀ kb ∈ processNcaaConsolidations cm gamesL teams pbm0,
        kb.2.confidence = Confidence.num kb.2.evidence_games.length) := by
  refine ⟨?_, ?_, fun cm gamesL teams pbm0 hp =>
    processNcaaConsolidations_conf_inv cm gamesL teams pbm0 hp⟩
  · intro b
    cases hb : b.btype <;> cases hab : b.already_bound <;>
      first
        | (simp [researchable, hb, hab]; tauto)
        | simp [researchable, hb, hab]
  · intro b hb hab
    cases hbt : b.btype
    · simp [researchable, hbt, hab]
    · exact absurd hbt hb
    · simp [researchable, hbt, hab]

/-- C3 (witness): the promotion theorem applied to a concrete already-bound
espn-to-ncaa candidate and to the concrete consolidation run. -/
theorem C3_witness :
    researchable boundCandidate = false ∧
    ∀ kb ∈ processNcaaConsolidations [] [ncaaY] [teamTA, teamTB] [],
      kb.2.confidence = Confidence.num kb.2.evidence_games.length :=
  ⟨C3_binding_promotion.2.1 boundCandidate (by decide) rfl,
   C3_binding_promotion.2.2 [] [ncaaY] [teamTA, teamTB] [] (by simp)⟩

/-! ### Defensive parsing (C9) -/

theorem hasDDD_tail (c : Char) (s : Str) (h : hasDigitDashDigit (c :: s) = false) :
    hasDigitDashDigit s = false := by
  cases s with
  | nil => rfl
  | cons x t =>
    cases t with
    | nil => rfl
    | cons y r =>
      simp only [hasDigitDashDigit, Bool.or_eq_false_iff] at h
      exact h.2

theorem hasDDD_dropWhile (p : Char → Bool) (s : Str) (h : hasDigitDashDigit s = false) :
    hasDigitDashDigit (s.dropWhile p) = false := by
  induction s with
  | nil => exact h
  | cons c cs ih =>
    rcases Bool.eq_false_or_eq_true (p c) with hp | hp
    · rw [List.dropWhile_cons_of_pos hp]
      exact ih (hasDDD_tail c cs h)
    · rw [List.dropWhile_cons_of_neg (by rw [hp]; simp)]
      exact h

theorem hasDDD_of_dropWhile_dash (s : Str) :
    ∀ c : Char, c.isDigit = true →
      ∀ d r, (c :: s).dropWhile (fun x => x.isDigit) = '-' :: d :: r → d.isDigit = true →
        hasDigitDashDigit (c :: s) = true := by
  induction s with
  | nil =>
    intro c hc d r hdw
    rw [List.dropWhile_cons_of_pos hc] at hdw
    simp at hdw
  | cons c2 cs2 ih =>
    intro c hc d r hdw hd
    rw [List.dropWhile_cons_of_pos hc] at hdw
    rcases Bool.eq_false_or_eq_true c2.isDigit with h2 | h2
    · have hih := ih c2 h2 d r
        (by rw [List.dropWhile_cons_of_pos h2] at hdw; rw [List.dropWhile_cons_of_pos h2]; exact hdw) hd
      cases cs2 with
      | nil =>
        rw [List.dropWhile_cons_of_pos h2] at hdw
        simp [List.dropWhile] at hdw
      | cons z zs =>
        simp only [hasDigitDashDigit] at hih ⊢
        rw [hih]
        simp
    · rw [List.dropWhile_cons_of_neg (by rw [h2]; simp)] at hdw
      injection hdw with hc2 heq
      simp only [hasDigitDashDigit, hc2, heq]
      simp [hc, hd]

theorem noPair_findDigitPairGo (fuel : Nat) :
    ∀ s : Str, hasDigitDashDigit s = false → findDigitPairGo fuel s = none := by
  induction fuel with
  | zero => intro s _; cases s <;> rfl
  | succ fuel ih =>
    intro s h
    cases s with
    | nil => rfl
    | cons c cs =>
      rcases Bool.eq_false_or_eq_true c.isDigit with hc | hc
      · have hrest : hasDigitDashDigit ((c :: cs).dropWhile (fun x => x.isDigit)) = false :=
          hasDDD_dropWhile _ _ h
        simp only [findDigitPairGo]
        rw [if_pos hc]
        split
        · rename_i r2 heq
          split_ifs with hrun
          · exact ih r2 (hasDDD_tail '-' r2 (heq ▸ hrest))
          · exfalso
            cases r2 with
            | nil => simp [List.takeWhile] at hrun
            | cons d r3 =>
              rcases Bool.eq_false_or_eq_true d.isDigit with hd | hd
              · have := hasDDD_of_dropWhile_dash cs c hc d r3 heq hd
                rw [this] at h
                simp at h
              · rw [List.takeWhile_cons_of_neg (by rw [hd]; simp)] at hrun
                simp at hrun
        · exact ih _ hrest
      · simp only [findDigitPairGo]
        rw [if_neg (by rw [hc]; simp)]
        exact ih cs (hasDDD_tail c cs h)

theorem noPair_findDigitPair (s : Str) (h : hasDigitDashDigit s = false) :
    findDigitPair s = none :=
  noPair_findDigitPairGo s.length s h

/-- C9 (amended): defensive parsing is total, returns null on missing or
empty date strings, and returns a date for a slash-format string only when
all three fields parsed as numbers and the stated month equals the month
of the calendar-normalized date; a score string containing no digit-pair
yields null home score, null away score and null winner.  (The original
claim that EVERY malformed date string yields null fails: a malformed day
offset that normalizes into the stated month of another year is accepted,
see the counterexample.) -/
theorem C9_defensive_parsing :
    (∀ jp : Str → Option Int, parseNcaaDate jp none = none) ∧
    (∀ jp : Str → Option Int, parseNcaaDate jp (some []) = none) ∧
    (∀ (jp : Str → Option Int) (s : Str) (ms : Int), hasChar '/' s = true →
      parseNcaaDate jp (some s) = some ms →
      ∃ m d y : Int,
        jsNumber ((jsSplitChar '/' ((jsSplitChar ' ' s).headI))[0]?) = some m ∧
        jsNumber ((jsSplitChar '/' ((jsSplitChar ' ' s).headI))[1]?) = some d ∧
        jsNumber ((jsSplitChar '/' ((jsSplitChar ' ' s).headI))[2]?) = some y ∧
        ms = jsMakeDateMs y (m - 1) d ∧ jsGetMonth ms + 1 = m) ∧
    (∀ (s : Option Str) (hId aId gId : Option Str),
      hasDigitDashDigit (jsTrim (s.getD [])) = false →
      parseNcaaScore s hId aId gId = emptyScore) := by
  refine ⟨fun jp => rfl, fun jp => rfl, ?_, ?_⟩
  · intro jp s ms hslash hsome
    have hne : s.isEmpty = false := by
      cases s with
      | nil => simp [hasChar] at hslash
      | cons c cs => rfl
    simp only [parseNcaaDate, hne, Bool.false_eq_true, if_false, hslash, if_true] at hsome
    rcases hm : jsNumber ((jsSplitChar '/' ((jsSplitChar ' ' s).headI))[0]?) with _ | m
    · rw [hm] at hsome; simp at hsome
    rcases hd : jsNumber ((jsSplitChar '/' ((jsSplitChar ' ' s).headI))[1]?) with _ | d
    · rw [hm, hd] at hsome; simp at hsome
    rcases hy : jsNumber ((jsSplitChar '/' ((jsSplitChar ' ' s).headI))[2]?) with _ | y
    · rw [hm, hd, hy] at hsome; simp at hsome
    rw [hm, hd, hy] at hsome
    simp only at hsome
    split_ifs at hsome with hmon
    · refine ⟨m, d, y, rfl, rfl, rfl, ?_, ?_⟩
      · exact (Option.some_inj.mp hsome).symm
      · rw [show ms = jsMakeDateMs y (m - 1) d from (Option.some_inj.mp hsome).symm]
        exact hmon
  · intro s hId aId gId hndd
    rcases Bool.eq_false_or_eq_true (jsTruthy s) with ht | ht
    · simp only [parseNcaaScore, ht, Bool.not_true, Bool.false_eq_true, if_false]
      cases hwl : wlSplit (jsTrim (s.getD [])) with
      | none => simp only [hwl, noPair_findDigitPair _ hndd]
      | some ip =>
        obtain ⟨i, p⟩ := ip
        have hp : hasDigitDashDigit p = false := by
          rcases htr : jsTrim (s.getD []) with _ | ⟨c, cs⟩
          · rw [htr] at hwl
            simp [wlSplit] at hwl
          · rw [htr] at hwl hndd
            cases cs with
            | nil => simp [wlSplit] at hwl
            | cons c2 rest =>
              simp only [wlSplit] at hwl
              split_ifs at hwl with hcond
              · have := hasDDD_dropWhile (fun x => wsChar x) (c2 :: rest)
                  (hasDDD_tail c _ hndd)
                injection hwl with hwl2
                injection hwl2 with _ hpd
                rw [← hpd]
                exact this
        simp only [hwl, noPair_findDigitPair _ hp]
    · simp [parseNcaaScore, ht]

/-- C9 (counterexample): the malformed date string 1/367/2020 (January has
no day 367) is not rejected: calendar normalization turns it into
2021-01-01, whose month again reads 1, so the month-consistency check
passes and a non-null date is fabricated. -/
theorem C9_counterexample :
    parseNcaaDate (fun _ => none) (some (str "1/367/2020")) =
      some (days_from_civil 2021 1 1 * msPerDay) ∧
    jsMakeDateMs 2020 0 367 = days_from_civil 2021 1 1 * msPerDay := by
  decide

/-- C9 (witness): the score clause of the defensive-parsing theorem at a
concrete pairless score string. -/
theorem C9_witness :
    parseNcaaScore (some (str "postponed")) (some (str "h")) (some (str "a"))
      (some (str "h")) = emptyScore :=
  C9_defensive_parsing.2.2.2 (some (str "postponed")) (some (str "h")) (some (str "a"))
    (some (str "h")) (by decide)

/-! ### cleanName stability (C6) -/

theorem afterLit_append (p : Str) : ∀ s r : Str, afterLit p s = some r → s = p ++ r := by
  induction p with
  | nil => intro s r h; simp [afterLit] at h; simp [h]
  | cons pc pt ih =>
    intro s r h
    cases s with
    | nil => simp [afterLit] at h
    | cons c cs =>
      simp only [afterLit] at h
      split_ifs at h with hc
      rw [List.cons_append, hc, ih cs r h]

theorem tryAlts_decomp (alts : List Str) (s a rest : Str)
    (h : tryAlts alts s = some (a, rest)) : s = a ++ rest := by
  induction alts with
  | nil => simp [tryAlts] at h
  | cons a0 as ih =>
    simp only [tryAlts] at h
    rcases hfit : afterLit a0 s with _ | r0
    · rw [hfit] at h
      dsimp only at h
      exact ih h
    · rw [hfit] at h
      dsimp only at h
      split_ifs at h with hb
      · obtain ⟨h1, h2⟩ := Prod.mk.injEq .. ▸ Option.some_inj.mp h
        subst h1
        subst h2
        exact afterLit_append a0 s r0 hfit
      · exact ih h

theorem rwId_sound (alts : List Str) (repl : Str) (fuel : Nat) :
    ∀ (prevW : Bool) (s : Str), rwId alts repl fuel prevW s = true →
      rwGo alts repl fuel prevW s = s := by
  induction fuel with
  | zero => intro prevW s _; cases s <;> rfl
  | succ fuel ih =>
    intro prevW s h
    cases s with
    | nil => rfl
    | cons c cs =>
      cases hp : prevW with
      | true =>
        rw [hp] at h
        simp only [rwId, Bool.not_true, Bool.false_eq_true, if_false] at h
        simp only [rwGo, Bool.not_true, Bool.false_eq_true, if_false]
        rw [ih _ _ h]
      | false =>
        rw [hp] at h
        simp only [rwId, Bool.not_false, if_true] at h
        simp only [rwGo, Bool.not_false, if_true]
        revert h
        cases hta : tryAlts alts (c :: cs) with
        | none =>
          intro h
          dsimp only at h ⊢
          rw [ih _ _ h]
        | some ar =>
          obtain ⟨a, rest⟩ := ar
          intro h
          dsimp only at h ⊢
          rw [Bool.and_eq_true, decide_eq_true_iff] at h
          obtain ⟨har, hrest⟩ := h
          rw [ih _ _ hrest, ← har]
          exact (tryAlts_decomp alts _ a rest hta).symm

theorem map_self {f : Char → Char} (s : Str) (h : ∀ c ∈ s, f c = c) : s.map f = s := by
  induction s with
  | nil => rfl
  | cons c cs ih =>
    simp only [List.map_cons, h c (List.mem_cons_self _ _)]
    rw [ih (fun x hx => h x (List.mem_cons_of_mem _ hx))]

theorem filter_self_of {p : Char → Bool} (s : Str) (h : ∀ c ∈ s, p c = true) :
    s.filter p = s := by
  induction s with
  | nil => rfl
  | cons c cs ih =>
    rw [List.filter_cons_of_pos (h c (List.mem_cons_self _ _))]
    rw [ih (fun x hx => h x (List.mem_cons_of_mem _ hx))]

theorem wfilter_self_of {p : Str → Bool} (ws : List Str) (h : ∀ w ∈ ws, p w = true) :
    ws.filter p = ws := by
  induction ws with
  | nil => rfl
  | cons w rest ih =>
    rw [List.filter_cons_of_pos (h w (List.mem_cons_self _ _))]
    rw [ih (fun x hx => h x (List.mem_cons_of_mem _ hx))]

theorem flatMap_self {f : Char → Str} (s : Str) (h : ∀ c ∈ s, f c = [c]) :
    s.flatMap f = s := by
  induction s with
  | nil => rfl
  | cons c cs ih =>
    simp only [List.flatMap_cons, h c (List.mem_cons_self _ _)]
    rw [ih (fun x hx => h x (List.mem_cons_of_mem _ hx))]
    rfl

theorem joinSp_cons (c : Char) (p : Str) (ps : List Str) :
    joinSp ((c :: p) :: ps) = c :: joinSp (p :: ps) := by
  cases ps <;> simp [joinSp]

theorem joinSp_split (s : Str) : joinSp (jsSplitChar ' ' s) = s := by
  induction s with
  | nil => rfl
  | cons c cs ih =>
    simp only [jsSplitChar]
    by_cases hc : c = ' '
    · rw [if_pos hc]
      obtain ⟨p, ps, hps⟩ : ∃ p ps, jsSplitChar ' ' cs = p :: ps := by
        cases he : jsSplitChar ' ' cs with
        | nil => exact absurd he (jsSplitChar_ne_nil ' ' cs)
        | cons p ps => exact ⟨p, ps, rfl⟩
      rw [hps] at ih ⊢
      simp only [joinSp]
      rw [ih, hc]
      rfl
    · rw [if_neg hc]
      obtain ⟨p, ps, hps⟩ : ∃ p ps, jsSplitChar ' ' cs = p :: ps := by
        cases he : jsSplitChar ' ' cs with
        | nil => exact absurd he (jsSplitChar_ne_nil ' ' cs)
        | cons p ps => exact ⟨p, ps, rfl⟩
      rw [hps] at ih ⊢
      rw [joinSp_cons, ih]

theorem collapse_id (s : Str) : ∀ b : Bool, spaceNormGo b s = true → collapseWsGo b s = s := by
  induction s with
  | nil => intro b _; rfl
  | cons c cs ih =>
    intro b h
    rcases Bool.eq_false_or_eq_true (wsChar c) with hws | hws
    · simp only [spaceNormGo, hws, if_true] at h
      simp only [collapseWsGo, hws, if_true]
      rw [Bool.and_eq_true, Bool.and_eq_true, Bool.and_eq_true] at h
      obtain ⟨⟨⟨hsp, hpb⟩, _⟩, hrec⟩ := h
      have hb : b = false := by
        cases b
        · rfl
        · simp at hpb
      rw [hb]
      simp only [Bool.false_eq_true, if_false]
      rw [ih true hrec, decide_eq_true_iff.mp hsp]
    · simp only [spaceNormGo, hws, Bool.false_eq_true, if_false] at h
      simp only [collapseWsGo, hws, Bool.false_eq_true, if_false]
      rw [ih false h]

theorem norm_drop_false (s : Str) (b : Bool) (h : spaceNormGo b s = true) :
    spaceNormGo false s = true := by
  cases s with
  | nil => rfl
  | cons c cs =>
    rcases Bool.eq_false_or_eq_true (wsChar c) with hws | hws
    · simp only [spaceNormGo, hws, if_true] at h ⊢
      rw [Bool.and_eq_true, Bool.and_eq_true, Bool.and_eq_true] at h
      obtain ⟨⟨⟨hsp, _⟩, hne⟩, hrec⟩ := h
      simp [hsp, hne, hrec]
    · simp only [spaceNormGo, hws, Bool.false_eq_true, if_false] at h ⊢
      exact h

theorem norm_head_not_ws (c : Char) (cs : Str) (h : spaceNormGo true (c :: cs) = true) :
    wsChar c = false := by
  rcases Bool.eq_false_or_eq_true (wsChar c) with hws | hws
  · simp only [spaceNormGo, hws, if_true] at h
    rw [Bool.and_eq_true, Bool.and_eq_true, Bool.and_eq_true] at h
    obtain ⟨⟨⟨_, hpb⟩, _⟩, _⟩ := h
    simp at hpb
  · exact hws

theorem norm_getLast (s : Str) :
    ∀ b, spaceNormGo b s = true → ∀ x, s.getLast? = some x → wsChar x = false := by
  induction s with
  | nil => intro b _ x hx; simp at hx
  | cons c cs ih =>
    intro b h x hx
    cases cs with
    | nil =>
      simp at hx
      rcases Bool.eq_false_or_eq_true (wsChar c) with hws | hws
      · simp only [spaceNormGo, hws, if_true] at h
        rw [Bool.and_eq_true, Bool.and_eq_true, Bool.and_eq_true] at h
        obtain ⟨⟨⟨_, _⟩, hne⟩, _⟩ := h
        simp at hne
      · rw [← hx]
        exact hws
    | cons c2 cs2 =>
      have hx2 : (c2 :: cs2).getLast? = some x := by
        rw [← hx]
        simp [List.getLast?]
      rcases Bool.eq_false_or_eq_true (wsChar c) with hws | hws
      · simp only [spaceNormGo, hws, if_true] at h
        rw [Bool.and_eq_true, Bool.and_eq_true, Bool.and_eq_true] at h
        exact ih true h.2 x hx2
      · simp only [spaceNormGo, hws, Bool.false_eq_true, if_false] at h
        exact ih false h x hx2

theorem dropWhile_id_of_head {p : Char → Bool} (s : Str)
    (h : ∀ x, s.head? = some x → p x = false) : s.dropWhile p = s := by
  cases s with
  | nil => rfl
  | cons c cs =>
    rw [List.dropWhile_cons_of_neg]
    rw [h c rfl]
    simp

theorem trim_id (s : Str) (h : spaceNormal s = true) : jsTrim s = s := by
  have h1 : s.dropWhile (fun c => wsChar c) = s := by
    apply dropWhile_id_of_head
    intro x hx
    cases s with
    | nil => simp at hx
    | cons c cs =>
      simp at hx
      rw [← hx]
      exact norm_head_not_ws c cs h
  have h2 : s.reverse.dropWhile (fun c => wsChar c) = s.reverse := by
    apply dropWhile_id_of_head
    intro x hx
    rw [List.head?_reverse] at hx
    exact norm_getLast s true h x hx
  rw [jsTrim, h1, h2, List.reverse_reverse]

/-- C6 (amended): cleanName is a pure function (equal inputs give equal
outputs), and it is idempotent on every stable cleaned name: whenever the
cleaned name is already lower-case, free of the special characters and of
all word-rewrite triggers, nickname-free and space-normalized, a second
cleaning returns it unchanged.  Idempotence fails in general, see the
counterexample. -/
theorem C6_stable_idempotent (x : Option Str)
    (h : cleanStable (cleanName x) = true) :
    cleanName (some (cleanName x)) = cleanName x := by
  by_cases hnil : cleanName x = []
  · rw [hnil]
    rfl
  · generalize hy : cleanName x = y at h hnil ⊢
    simp only [cleanStable, Bool.and_eq_true] at h
    obtain ⟨⟨⟨⟨⟨⟨⟨⟨⟨⟨⟨hlow, hchars⟩, hrw1⟩, hrw2⟩, hrw3⟩, hrw4⟩, hrw5⟩,
      hrw6⟩, hrw7⟩, hrw8⟩, hnick⟩, hnorm⟩ := h
    have htv : jsTruthy (some y) = true := by
      simp [jsTruthy, List.isEmpty_iff, hnil]
    have hclist : ∀ c ∈ y, c ≠ apo ∧ c ≠ '&' ∧ c ≠ '.' ∧ c ≠ '(' ∧ c ≠ ')' ∧ c ≠ '-' := by
      intro c hc
      have h' := List.all_eq_true.mp hchars c hc
      simp at h'
      tauto
    have e0 : jsToLower y = y :=
      map_self y (fun c hc => eq_of_beq (List.all_eq_true.mp hlow c hc))
    have e1 : y.filter (fun c => c ≠ apo) = y :=
      filter_self_of y (fun c hc => decide_eq_true_iff.mpr (hclist c hc).1)
    have e2 : (y.flatMap (fun c => if c = '&' then str "and" else [c])) = y :=
      flatMap_self y (fun c hc => by rw [if_neg (hclist c hc).2.1])
    have e3 : y.filter (fun c => !(c = '.' || c = '(' || c = ')')) = y := by
      apply filter_self_of
      intro c hc
      obtain ⟨_, _, h3, h4, h5, _⟩ := hclist c hc
      simp [h3, h4, h5]
    have e4 : y.map (fun c => if c = '-' then ' ' else c) = y :=
      map_self y (fun c hc => by rw [if_neg (hclist c hc).2.2.2.2.2])
    have r1 : replaceWordAlts [str "st", str "state"] (str "state") y = y :=
      rwId_sound _ _ _ _ _ hrw1
    have r2 : replaceWordAlts [str "saint"] (str "st") y = y :=
      rwId_sound _ _ _ _ _ hrw2
    have r3 : replaceWordAlts [str "mount", str "mt"] (str "mount") y = y :=
      rwId_sound _ _ _ _ _ hrw3
    have r4 : replaceWordAlts [str "california state", str "cal state"] (str "csu") y = y :=
      rwId_sound _ _ _ _ _ hrw4
    have r5 : replaceWordAlts [str "southern illinois"] (str "siu") y = y :=
      rwId_sound _ _ _ _ _ hrw5
    have r6 : replaceWordAlts [str "suny", str "state university of new york"] (str "suny") y = y :=
      rwId_sound _ _ _ _ _ hrw6
    have r7 : replaceWordAlts [str "university of", str "university", str "univ", str "college"]
        [] y = y :=
      rwId_sound _ _ _ _ _ hrw7
    have r8 : replaceWordAlts [str "at"] [] y = y :=
      rwId_sound _ _ _ _ _ hrw8
    have ew : (jsSplitChar ' ' y).filter (fun w => !(commonNicknames.contains w)) =
        jsSplitChar ' ' y :=
      wfilter_self_of _ (fun w hw => List.all_eq_true.mp hnick w hw)
    have ej : joinSp (jsSplitChar ' ' y) = y := joinSp_split y
    have ec : collapseWs y = y :=
      collapse_id y false (norm_drop_false y true hnorm)
    have et : jsTrim y = y := trim_id y hnorm
    show cleanName (some y) = y
    simp only [cleanName, htv, Bool.not_true, Bool.false_eq_true, if_false, Option.getD_some]
    rw [e0, e1, e2, e3, e4, r1, r2, r3, r4, r5, r6, r7, r8, ew, ej, ec, et]

/-- C6 (counterexample): cleanName is not idempotent: cleaning the word
saint yields st, but cleaning st yields state, so a second cleaning
changes the result. -/
theorem C6_counterexample :
    cleanName (some (cleanName (some (str "saint")))) ≠ cleanName (some (str "saint")) := by
  decide

/-- C6 (witness): the stable-idempotence theorem applied to a concrete
stable name. -/
theorem C6_witness :
    cleanName (some (cleanName (some (str "Alpha Beta")))) = cleanName (some (str "Alpha Beta")) :=
  C6_stable_idempotent (some (str "Alpha Beta")) (by decide)
